import Mathlib

/-!
Verification development for the `deepts` repository.

The file shallowly embeds the two data modules of the repository:

* `src/deepts/data/_slicedataset.py` — `SliceDataset`, a sequence adapter
  over a torch dataset supporting integer, slice, and numpy-array indexing;
* `src/deepts/data/_tsdataset.py` — `TimeseriesFeatures` and
  `TimeseriesDataset`, the feature-role record and the wrapper around the
  external `pytorch_forecasting` windowing dataset.

Python lists are mutable objects; where object identity and in-place
mutation matter (the `static_reals` append and the `deepcopy` in
`from_parameters`) lists are modelled as references into an explicit store.
Fallible operations (numpy indexing, slicing, attribute lookup) return
`Except`.
-/

set_option autoImplicit false

/-- Python exception kinds raised by the code under study.  Only the kind of
the exception is modelled, not its message. -/
inductive PyErr
  | indexError
  | valueError
  | attributeError
deriving DecidableEq, Repr

/-- An arbitrary torch dataset: a black box with a length and a total
indexing function (`_slicedataset.py` never validates the index it passes
to the wrapped dataset). -/
structure TorchDS (α : Type) where
  len : Nat
  get : Int → α

/-- The state of a `SliceDataset` after `__init__`: the wrapped dataset and
the numpy index array `indices_` (integer entries). -/
structure SliceDataset (α : Type) where
  dataset : TorchDS α
  indices_ : List Int

/-- Embedding of `SliceDataset.__init__`: `indices_` is the given index
array, or `np.arange(len(dataset))` when `indices` is `None`. -/
def SliceDataset.make {α : Type} (dataset : TorchDS α) (indices : Option (List Int)) :
    SliceDataset α :=
  ⟨dataset,
    match indices with
    | some ix => ix
    | none => (List.range dataset.len).map Int.ofNat⟩

/-- Embedding of `SliceDataset.__len__`: the number of selected indices. -/
def SliceDataset.len {α : Type} (s : SliceDataset α) : Nat :=
  s.indices_.length

/-- Embedding of `SliceDataset.transform`: the base class returns `data`
unchanged (the identity transform). -/
def SliceDataset.transform {α : Type} (_s : SliceDataset α) (data : α) : α :=
  data

/-- Normalisation of a (possibly negative) numpy integer index against an
array of length `n`: negative indices count from the end. -/
def npNormIdx (n : Nat) (i : Int) : Int :=
  if i < 0 then i + n else i

/-- Integer indexing of a numpy 1-d integer array: in-range indices (after
negative-index normalisation) return the element, others raise
`IndexError`. -/
def npGetInt (xs : List Int) (i : Int) : Except PyErr Int :=
  let j := npNormIdx xs.length i
  if 0 ≤ j ∧ j < (xs.length : Int) then .ok (xs.getD j.toNat 0)
  else .error .indexError

/-- Fancy (integer-array) indexing of a numpy 1-d integer array: each
position is looked up with `npGetInt`; the first out-of-range position
raises `IndexError`. -/
def npFancy (xs : List Int) : List Int → Except PyErr (List Int)
  | [] => .ok []
  | p :: ps =>
    match npGetInt xs p, npFancy xs ps with
    | .ok v, .ok vs => .ok (v :: vs)
    | .error e, _ => .error e
    | .ok _, .error e => .error e

/-- Helper for `flatnonzero`: positions (starting at `k`) of the `true`
entries of a boolean array. -/
def flatnonzeroAux : List Bool → Int → List Int
  | [], _ => []
  | b :: rest, k =>
    if b then k :: flatnonzeroAux rest (k + 1) else flatnonzeroAux rest (k + 1)

/-- Embedding of `np.flatnonzero` on a 1-d boolean array: the positions of
its `True` entries. -/
def flatnonzero (m : List Bool) : List Int :=
  flatnonzeroAux m 0

/-- A Python `slice` object: three optional integer components.  A slice
object with step `0` is constructible; only indexing with it raises. -/
structure PySlice where
  start : Option Int
  stop : Option Int
  step : Option Int
deriving DecidableEq, Repr

/-- Clamping of an explicit slice bound against length `n`, following
CPython `PySlice_AdjustIndices` (also used by numpy). -/
def clampIdx (n : Nat) (step v : Int) : Int :=
  let v := if v < 0 then v + n else v
  if v < 0 then (if 0 < step then 0 else -1)
  else if (n : Int) ≤ v then (if 0 < step then (n : Int) else (n : Int) - 1)
  else v

/-- Resolution of a slice against length `n` into concrete
`(start, stop, step)` bounds; a zero step raises `ValueError`. -/
def sliceBounds (n : Nat) (sl : PySlice) : Except PyErr (Int × Int × Int) :=
  let step := sl.step.getD 1
  if step = 0 then .error .valueError
  else
    let start :=
      match sl.start with
      | none => if 0 < step then 0 else (n : Int) - 1
      | some v => clampIdx n step v
    let stop :=
      match sl.stop with
      | none => if 0 < step then (n : Int) else -1
      | some v => clampIdx n step v
    .ok (start, stop, step)

/-- Index enumeration of a resolved slice: from `cur`, stepping by `step`,
while the bound `stop` has not been passed.  `fuel` dominates the number of
iterations (the caller passes `n + 1`, which suffices for clamped
bounds). -/
def sliceIndicesAux (cur stop step : Int) : Nat → List Int
  | 0 => []
  | fuel + 1 =>
    if (0 < step ∧ cur < stop) ∨ (step < 0 ∧ stop < cur) then
      cur :: sliceIndicesAux (cur + step) stop step fuel
    else []

/-- Indices selected by a Python slice from an array of length `n`. -/
def pySliceIdx (n : Nat) (sl : PySlice) : Except PyErr (List Int) :=
  match sliceBounds n sl with
  | .ok b => .ok (sliceIndicesAux b.1 b.2.1 b.2.2 (n + 1))
  | .error e => .error e

/-- Slicing of a numpy 1-d integer array with a Python slice object. -/
def listSlice (xs : List Int) (sl : PySlice) : Except PyErr (List Int) :=
  match pySliceIdx xs.length sl with
  | .ok ix => .ok (ix.map (fun i => xs.getD i.toNat 0))
  | .error e => .error e

/-- A numpy array used as an index: boolean or integer data together with a
shape (`ndim` is the length of the shape). -/
inductive NpArr
  | bools (shape : List Nat) (data : List Bool)
  | ints (shape : List Nat) (data : List Int)
deriving DecidableEq, Repr

/-- Number of dimensions of a numpy array. -/
def NpArr.ndim : NpArr → Nat
  | .bools shape _ => shape.length
  | .ints shape _ => shape.length

/-- The integer positions a 1-d index array selects: a boolean array is
first passed through `np.flatnonzero` (as in `__getitem__`), an integer
array is used as is. -/
def NpArr.asIndexList : NpArr → List Int
  | .bools _ m => flatnonzero m
  | .ints _ xs => xs

/-- The kinds of index `SliceDataset.__getitem__` dispatches on:
`int`/`np.integer`, `slice`, and `np.ndarray`. -/
inductive PyIndex
  | int (i : Int)
  | slice (sl : PySlice)
  | array (a : NpArr)

/-- Result of `SliceDataset.__getitem__`: either a materialised sample
(integer index) or a new lazy `SliceDataset` view. -/
inductive GetResult (α : Type)
  | sample (x : α)
  | view (s : SliceDataset α)

/-- Embedding of `SliceDataset.__getitem__`: an integer index materialises
the transformed sample at `dataset[indices_[i]]`; a slice returns a new
view over `indices_[sl]`; an array index is rejected unless 1-dimensional,
boolean arrays are converted with `np.flatnonzero`, and the result is a new
view over `indices_[i]`. -/
def SliceDataset.getitem {α : Type} (s : SliceDataset α) (ix : PyIndex) :
    Except PyErr (GetResult α) :=
  match ix with
  | .int i =>
    match npGetInt s.indices_ i with
    | .ok v => .ok (.sample (s.transform (s.dataset.get v)))
    | .error e => .error e
  | .slice sl =>
    match listSlice s.indices_ sl with
    | .ok ix' => .ok (.view ⟨s.dataset, ix'⟩)
    | .error e => .error e
  | .array a =>
    if a.ndim ≠ 1 then .error .indexError
    else
      match npFancy s.indices_ a.asIndexList with
      | .ok ix' => .ok (.view ⟨s.dataset, ix'⟩)
      | .error e => .error e

/-- The integer positions "selected by the mask `m` restricted by the slice
`sl`": slicing the flat positions of the `True` entries of `m`. -/
def selectedPositions (m : List Bool) (sl : PySlice) : Except PyErr (List Int) :=
  listSlice (flatnonzero m) sl

/-- A `SliceDataset` instance as seen by Python attribute lookup: its
instance dictionary (`vars(self)`) and the attributes reachable through its
class. -/
structure PySliceInstance (Obj : Type) where
  vars : String → Option Obj
  classAttr : String → Option Obj

/-- Embedding of Python attribute lookup on a `SliceDataset` together with
`SliceDataset.__getattr__`: an attribute found on the class or in the
instance dictionary is returned; otherwise `__getattr__` runs, which raises
`AttributeError` when `'dataset' not in vars(self)` and otherwise returns
`getattr(self.dataset, attr)` (raising `AttributeError` when the wrapped
dataset lacks the attribute as well).  `objAttrs` gives the attributes of
wrapped objects. -/
def SliceDataset.attrLookup {Obj : Type} (inst : PySliceInstance Obj)
    (objAttrs : Obj → String → Option Obj) (attr : String) : Except PyErr Obj :=
  match inst.classAttr attr with
  | some v => .ok v
  | none =>
    match inst.vars attr with
    | some v => .ok v
    | none =>
      match inst.vars "dataset" with
      | none => .error .attributeError
      | some ds =>
        match objAttrs ds attr with
        | some v => .ok v
        | none => .error .attributeError

/-! ### Basic list lemmas used by the indexing proofs -/

theorem listGetD_mem {α : Type} (xs : List α) (i : Nat) (d : α) (h : i < xs.length) :
    xs.getD i d ∈ xs := by
  induction xs generalizing i with
  | nil => simp at h
  | cons a tl ih =>
    cases i with
    | zero => simp
    | succ j =>
      simp only [List.getD_cons_succ]
      exact List.mem_cons_of_mem a (ih j (by simpa using h))

theorem listGetD_map {α β : Type} (f : α → β) (xs : List α) (i : Nat) (d : β) (d' : α)
    (h : i < xs.length) : (xs.map f).getD i d = f (xs.getD i d') := by
  induction xs generalizing i with
  | nil => simp at h
  | cons a tl ih =>
    cases i with
    | zero => simp
    | succ j =>
      simp only [List.map_cons, List.getD_cons_succ]
      exact ih j (by simpa using h)

theorem flatnonzeroAux_mem (m : List Bool) (k i : Int) (h : i ∈ flatnonzeroAux m k) :
    k ≤ i ∧ i < k + m.length := by
  induction m generalizing k with
  | nil => simp [flatnonzeroAux] at h
  | cons b rest ih =>
    simp only [flatnonzeroAux] at h
    by_cases hb : b = true
    · rw [if_pos hb] at h
      rcases List.mem_cons.mp h with h | h
      · subst h
        simp only [List.length_cons]
        push_cast
        omega
      · have := ih (k + 1) h
        simp only [List.length_cons]
        omega
    · rw [if_neg hb] at h
      have := ih (k + 1) h
      simp only [List.length_cons]
      omega

theorem flatnonzero_mem (m : List Bool) (i : Int) (h : i ∈ flatnonzero m) :
    0 ≤ i ∧ i < m.length := by
  have := flatnonzeroAux_mem m 0 i h
  omega

theorem npNormIdx_range (n : Nat) (i : Int) (h1 : -(n : Int) ≤ i) (h2 : i < n) :
    0 ≤ npNormIdx n i ∧ npNormIdx n i < n := by
  unfold npNormIdx
  by_cases h : i < 0
  · rw [if_pos h]; omega
  · rw [if_neg h]; omega

theorem npNormIdx_of_nonneg (n : Nat) (i : Int) (h : 0 ≤ i) : npNormIdx n i = i := by
  unfold npNormIdx
  rw [if_neg (by omega)]

theorem npGetInt_ok (xs : List Int) (i : Int) (h1 : -(xs.length : Int) ≤ i)
    (h2 : i < xs.length) :
    npGetInt xs i = .ok (xs.getD (npNormIdx xs.length i).toNat 0) := by
  have hr := npNormIdx_range xs.length i h1 h2
  unfold npGetInt
  rw [if_pos hr]

theorem npGetInt_ok_nonneg (xs : List Int) (i : Int) (h1 : 0 ≤ i) (h2 : i < xs.length) :
    npGetInt xs i = .ok (xs.getD i.toNat 0) := by
  rw [npGetInt_ok xs i (by omega) h2, npNormIdx_of_nonneg xs.length i h1]

theorem npFancy_ok (xs : List Int) (pos : List Int)
    (h : ∀ p ∈ pos, -(xs.length : Int) ≤ p ∧ p < xs.length) :
    npFancy xs pos = .ok (pos.map (fun p => xs.getD (npNormIdx xs.length p).toNat 0)) := by
  induction pos with
  | nil => rfl
  | cons p ps ih =>
    have hp := h p (List.mem_cons_self p ps)
    have hps := ih (fun q hq => h q (List.mem_cons_of_mem p hq))
    simp only [npFancy, npGetInt_ok xs p hp.1 hp.2, hps, List.map_cons]

theorem npFancy_ok_nonneg (xs : List Int) (pos : List Int)
    (h : ∀ p ∈ pos, 0 ≤ p ∧ p < xs.length) :
    npFancy xs pos = .ok (pos.map (fun p => xs.getD p.toNat 0)) := by
  rw [npFancy_ok xs pos (fun p hp => ⟨by have := (h p hp).1; omega, (h p hp).2⟩)]
  congr 1
  exact List.map_congr_left (fun p hp => by rw [npNormIdx_of_nonneg xs.length p (h p hp).1])

/-! ### Slice resolution lemmas -/

theorem clampIdx_pos (n : Nat) (step v : Int) (h : 0 < step) :
    0 ≤ clampIdx n step v ∧ clampIdx n step v ≤ n := by
  unfold clampIdx
  by_cases h1 : (if v < 0 then v + n else v) < 0
  · rw [if_pos h1, if_pos h]; omega
  · rw [if_neg h1]
    by_cases h2 : (n : Int) ≤ (if v < 0 then v + n else v)
    · rw [if_pos h2, if_pos h]; omega
    · rw [if_neg h2]; omega

theorem clampIdx_neg (n : Nat) (step v : Int) (h : step < 0) :
    -1 ≤ clampIdx n step v ∧ clampIdx n step v ≤ (n : Int) - 1 := by
  unfold clampIdx
  by_cases h1 : (if v < 0 then v + n else v) < 0
  · rw [if_pos h1, if_neg (by omega : ¬ (0 < step))]; omega
  · rw [if_neg h1]
    by_cases h2 : (n : Int) ≤ (if v < 0 then v + n else v)
    · rw [if_pos h2, if_neg (by omega : ¬ (0 < step))]; omega
    · rw [if_neg h2]; omega

/-- The resolved start bound of a slice against length `n` (the value
`sliceBounds` computes when the step is nonzero). -/
def sliceStartOf (n : Nat) (sl : PySlice) : Int :=
  match sl.start with
  | none => if 0 < sl.step.getD 1 then 0 else (n : Int) - 1
  | some v => clampIdx n (sl.step.getD 1) v

/-- The resolved stop bound of a slice against length `n`. -/
def sliceStopOf (n : Nat) (sl : PySlice) : Int :=
  match sl.stop with
  | none => if 0 < sl.step.getD 1 then (n : Int) else -1
  | some v => clampIdx n (sl.step.getD 1) v

theorem sliceBounds_eq (n : Nat) (sl : PySlice) (h : sl.step.getD 1 ≠ 0) :
    sliceBounds n sl = .ok (sliceStartOf n sl, sliceStopOf n sl, sl.step.getD 1) := by
  unfold sliceBounds sliceStartOf sliceStopOf
  simp only [if_neg h]

theorem sliceStartOf_nonneg (n : Nat) (sl : PySlice) (h : 0 < sl.step.getD 1) :
    0 ≤ sliceStartOf n sl := by
  unfold sliceStartOf
  cases sl.start with
  | none => rw [if_pos h]
  | some v => exact (clampIdx_pos n _ v h).1

theorem sliceStopOf_le (n : Nat) (sl : PySlice) (h : 0 < sl.step.getD 1) :
    sliceStopOf n sl ≤ n := by
  unfold sliceStopOf
  cases sl.stop with
  | none => rw [if_pos h]
  | some v => exact (clampIdx_pos n _ v h).2

theorem sliceStartOf_le_neg (n : Nat) (sl : PySlice) (h : sl.step.getD 1 < 0) :
    sliceStartOf n sl ≤ (n : Int) - 1 := by
  unfold sliceStartOf
  cases sl.start with
  | none => rw [if_neg (by omega : ¬ (0 < sl.step.getD 1))]
  | some v => exact (clampIdx_neg n _ v h).2

theorem sliceStopOf_ge_neg (n : Nat) (sl : PySlice) (h : sl.step.getD 1 < 0) :
    -1 ≤ sliceStopOf n sl := by
  unfold sliceStopOf
  cases sl.stop with
  | none => rw [if_neg (by omega : ¬ (0 < sl.step.getD 1))]
  | some v => exact (clampIdx_neg n _ v h).1

theorem sliceIndicesAux_mem (fuel : Nat) (cur stop step i : Int)
    (h : i ∈ sliceIndicesAux cur stop step fuel) :
    (0 < step → cur ≤ i ∧ i < stop) ∧ (step < 0 → stop < i ∧ i ≤ cur) := by
  induction fuel generalizing cur with
  | zero => simp [sliceIndicesAux] at h
  | succ fuel ih =>
    simp only [sliceIndicesAux] at h
    by_cases hc : (0 < step ∧ cur < stop) ∨ (step < 0 ∧ stop < cur)
    · rw [if_pos hc] at h
      rcases List.mem_cons.mp h with h | h
      · subst h; omega
      · have := ih (cur + step) h
        omega
    · rw [if_neg hc] at h
      simp at h

theorem pySliceIdx_mem (n : Nat) (sl : PySlice) (ix : List Int) (i : Int)
    (hok : pySliceIdx n sl = .ok ix) (hi : i ∈ ix) : 0 ≤ i ∧ i < n := by
  by_cases h : sl.step.getD 1 = 0
  · exfalso
    unfold pySliceIdx sliceBounds at hok
    simp only [if_pos h] at hok
    exact Except.noConfusion hok
  · unfold pySliceIdx at hok
    rw [sliceBounds_eq n sl h] at hok
    simp only [Except.ok.injEq] at hok
    subst hok
    have hm := sliceIndicesAux_mem (n + 1) (sliceStartOf n sl) (sliceStopOf n sl)
      (sl.step.getD 1) i hi
    by_cases hp : 0 < sl.step.getD 1
    · have h1 := sliceStartOf_nonneg n sl hp
      have h2 := sliceStopOf_le n sl hp
      have := hm.1 hp
      omega
    · have hn : sl.step.getD 1 < 0 := by omega
      have h1 := sliceStartOf_le_neg n sl hn
      have h2 := sliceStopOf_ge_neg n sl hn
      have := hm.2 hn
      omega

theorem pySliceIdx_ok (n : Nat) (sl : PySlice) (h : sl.step.getD 1 ≠ 0) :
    pySliceIdx n sl =
      .ok (sliceIndicesAux (sliceStartOf n sl) (sliceStopOf n sl) (sl.step.getD 1) (n + 1)) := by
  unfold pySliceIdx
  rw [sliceBounds_eq n sl h]

theorem listSlice_ok (xs : List Int) (sl : PySlice) (h : sl.step.getD 1 ≠ 0) :
    listSlice xs sl =
      .ok ((sliceIndicesAux (sliceStartOf xs.length sl) (sliceStopOf xs.length sl)
        (sl.step.getD 1) (xs.length + 1)).map (fun i => xs.getD i.toNat 0)) := by
  unfold listSlice
  rw [pySliceIdx_ok xs.length sl h]

/-! ### Characterisation of `SliceDataset.__getitem__` -/

theorem getitem_int_ok {α : Type} (s : SliceDataset α) (i : Int)
    (h1 : -(s.indices_.length : Int) ≤ i) (h2 : i < s.indices_.length) :
    s.getitem (.int i) =
      .ok (.sample (s.dataset.get (s.indices_.getD (npNormIdx s.indices_.length i).toNat 0))) := by
  have hdef : s.getitem (.int i) =
      match npGetInt s.indices_ i with
      | .ok v => .ok (.sample (s.transform (s.dataset.get v)))
      | .error e => .error e := rfl
  rw [hdef, npGetInt_ok s.indices_ i h1 h2]
  rfl

theorem getitem_slice_ok {α : Type} (s : SliceDataset α) (sl : PySlice)
    (h : sl.step.getD 1 ≠ 0) :
    s.getitem (.slice sl) = .ok (.view ⟨s.dataset,
      (sliceIndicesAux (sliceStartOf s.indices_.length sl) (sliceStopOf s.indices_.length sl)
        (sl.step.getD 1) (s.indices_.length + 1)).map (fun i => s.indices_.getD i.toNat 0)⟩) := by
  have hdef : s.getitem (.slice sl) =
      match listSlice s.indices_ sl with
      | .ok ix' => .ok (.view ⟨s.dataset, ix'⟩)
      | .error e => .error e := rfl
  rw [hdef, listSlice_ok s.indices_ sl h]

theorem getitem_array_ok {α : Type} (s : SliceDataset α) (a : NpArr) (hnd : a.ndim = 1)
    (h : ∀ p ∈ a.asIndexList, -(s.indices_.length : Int) ≤ p ∧ p < s.indices_.length) :
    s.getitem (.array a) = .ok (.view ⟨s.dataset,
      a.asIndexList.map (fun p => s.indices_.getD (npNormIdx s.indices_.length p).toNat 0)⟩) := by
  have hdef : s.getitem (.array a) =
      if a.ndim ≠ 1 then .error .indexError
      else
        match npFancy s.indices_ a.asIndexList with
        | .ok ix' => .ok (.view ⟨s.dataset, ix'⟩)
        | .error e => .error e := rfl
  rw [hdef, if_neg (by omega : ¬ (a.ndim ≠ 1)), npFancy_ok s.indices_ a.asIndexList h]

theorem getitem_array_ok_nonneg {α : Type} (s : SliceDataset α) (a : NpArr) (hnd : a.ndim = 1)
    (h : ∀ p ∈ a.asIndexList, 0 ≤ p ∧ p < s.indices_.length) :
    s.getitem (.array a) = .ok (.view ⟨s.dataset,
      a.asIndexList.map (fun p => s.indices_.getD p.toNat 0)⟩) := by
  have hdef : s.getitem (.array a) =
      if a.ndim ≠ 1 then .error .indexError
      else
        match npFancy s.indices_ a.asIndexList with
        | .ok ix' => .ok (.view ⟨s.dataset, ix'⟩)
        | .error e => .error e := rfl
  rw [hdef, if_neg (by omega : ¬ (a.ndim ≠ 1)), npFancy_ok_nonneg s.indices_ a.asIndexList h]

/-! ### Claim theorems for `SliceDataset` -/

/-- C3: for a `SliceDataset` (whose `transform` is the identity of the base
class) and an in-range integer or numpy-integer index `i`, `__getitem__(i)`
returns exactly the object the wrapped dataset returns at the mapped index
`indices_[i]` — a materialised sample, not another `SliceDataset`. -/
theorem C3_integer_indexing_unwrapped {α : Type} (s : SliceDataset α) (i : Int)
    (h1 : -(s.len : Int) ≤ i) (h2 : i < s.len) :
    s.getitem (.int i) =
      .ok (.sample (s.dataset.get (s.indices_.getD (npNormIdx s.len i).toNat 0))) :=
  getitem_int_ok s i h1 h2

/-- Concrete torch dataset used by witnesses: three samples. -/
def dsThree : TorchDS Nat := ⟨3, fun i => i.toNat * 10⟩

/-- Concrete `SliceDataset` used by witnesses, built by the constructor with
`indices=None`. -/
def sFix : SliceDataset Nat := SliceDataset.make dsThree none

theorem C3_integer_indexing_unwrapped_witness :
    (-(sFix.len : Int) ≤ -1 ∧ (-1 : Int) < sFix.len) ∧
    sFix.getitem (.int (-1)) =
      .ok (.sample (sFix.dataset.get (sFix.indices_.getD (npNormIdx sFix.len (-1)).toNat 0))) :=
  ⟨⟨by decide, by decide⟩, C3_integer_indexing_unwrapped sFix (-1) (by decide) (by decide)⟩

/-- C4 (amended): an array index whose `ndim` is not 1 raises `IndexError`;
a 1-dimensional array index passes the dimension check and returns a new
`SliceDataset` view provided every selected position is in range for
`indices_` — an out-of-range position instead raises `IndexError` from the
underlying fancy indexing. -/
theorem C4_array_ndim_check {α : Type} (s : SliceDataset α) (a : NpArr) :
    (a.ndim ≠ 1 → s.getitem (.array a) = .error .indexError) ∧
    (a.ndim = 1 → (∀ p ∈ a.asIndexList, -(s.len : Int) ≤ p ∧ p < s.len) →
      s.getitem (.array a) = .ok (.view ⟨s.dataset,
        a.asIndexList.map (fun p => s.indices_.getD (npNormIdx s.len p).toNat 0)⟩)) := by
  constructor
  · intro hnd
    have hdef : s.getitem (.array a) =
        if a.ndim ≠ 1 then .error .indexError
        else
          match npFancy s.indices_ a.asIndexList with
          | .ok ix' => .ok (.view ⟨s.dataset, ix'⟩)
          | .error e => .error e := rfl
    rw [hdef, if_pos hnd]
  · intro hnd h
    exact getitem_array_ok s a hnd h

/-- Concrete torch dataset with a single sample, used by counterexamples. -/
def dsOne : TorchDS Nat := ⟨1, fun _ => 0⟩

/-- C4 counterexample: the 1-dimensional integer array `[5]` indexed into a
`SliceDataset` of length 1 passes the dimension check but raises
`IndexError` instead of returning a new `SliceDataset`. -/
theorem C4_array_ndim_check_counterexample :
    (NpArr.ints [1] [5]).ndim = 1 ∧
    SliceDataset.getitem (⟨dsOne, [0]⟩ : SliceDataset Nat) (.array (.ints [1] [5])) =
      .error .indexError :=
  ⟨rfl, rfl⟩

theorem C4_array_ndim_check_witness :
    ((NpArr.bools [2, 2] [true, true, true, true]).ndim ≠ 1 ∧
      SliceDataset.getitem (⟨dsOne, [0]⟩ : SliceDataset Nat)
        (.array (.bools [2, 2] [true, true, true, true])) = .error .indexError) ∧
    ((NpArr.ints [1] [0]).ndim = 1 ∧
      SliceDataset.getitem (⟨dsOne, [0]⟩ : SliceDataset Nat) (.array (.ints [1] [0])) =
        .ok (.view ⟨dsOne, [0]⟩)) :=
  ⟨⟨by decide, (C4_array_ndim_check ⟨dsOne, [0]⟩ (.bools [2, 2] [true, true, true, true])).1
      (by decide)⟩,
   ⟨rfl, (C4_array_ndim_check ⟨dsOne, [0]⟩ (.ints [1] [0])).2 rfl (by decide)⟩⟩

/-- C9: an attribute not found on the `SliceDataset` itself is looked up on
the wrapped dataset through `__getattr__`; when the instance dictionary has
no `dataset` entry (e.g. during deserialisation) the lookup raises
`AttributeError` instead of recursing. -/
theorem C9_getattr_fallback {Obj : Type} (inst : PySliceInstance Obj)
    (objAttrs : Obj → String → Option Obj) (attr : String)
    (h1 : inst.classAttr attr = none) (h2 : inst.vars attr = none) :
    (∀ ds v, inst.vars "dataset" = some ds → objAttrs ds attr = some v →
      SliceDataset.attrLookup inst objAttrs attr = .ok v) ∧
    (inst.vars "dataset" = none →
      SliceDataset.attrLookup inst objAttrs attr = .error .attributeError) := by
  constructor
  · intro ds v hds hv
    unfold SliceDataset.attrLookup
    rw [h1, h2, hds]
    show (match objAttrs ds attr with
      | some v => (Except.ok v : Except PyErr Obj)
      | none => Except.error PyErr.attributeError) = Except.ok v
    rw [hv]
  · intro hds
    unfold SliceDataset.attrLookup
    rw [h1, h2, hds]

/-- Instance fixture for the attribute-lookup witness: the instance
dictionary holds only `dataset`. -/
def instFix : PySliceInstance Nat :=
  ⟨fun a => if a = "dataset" then some 7 else none, fun _ => none⟩

/-- Attribute table of wrapped objects for the witness: object `7` exposes
`series_len = 42`. -/
def objAttrsFix : Nat → String → Option Nat :=
  fun ds a => if a = "series_len" ∧ ds = 7 then some 42 else none

theorem C9_getattr_fallback_witness :
    (instFix.classAttr "series_len" = none ∧ instFix.vars "series_len" = none ∧
      instFix.vars "dataset" = some 7 ∧ objAttrsFix 7 "series_len" = some 42) ∧
    SliceDataset.attrLookup instFix objAttrsFix "series_len" = .ok 42 :=
  ⟨⟨rfl, by decide, by decide, by decide⟩,
   (C9_getattr_fallback instFix objAttrsFix "series_len" rfl (by decide)).1 7 42
     (by decide) (by decide)⟩

theorem castToNat (n : Nat) : ((n : Int)).toNat = n := rfl

theorem mask_slice_core {α : Type} (s : SliceDataset α) (m : List Bool) (K : List Int)
    (hlen : m.length = s.indices_.length)
    (hK : ∀ k ∈ K, 0 ≤ k ∧ k < ((flatnonzero m).length : Int)) (j : Nat) (hj : j < K.length) :
    SliceDataset.getitem
        (⟨s.dataset, K.map (fun i => ((flatnonzero m).map
          (fun p => s.indices_.getD p.toNat 0)).getD i.toNat 0)⟩ : SliceDataset α)
        (.int (j : Int)) =
      s.getitem (.int ((K.map (fun i => (flatnonzero m).getD i.toNat 0)).getD j 0)) := by
  have hk := listGetD_mem K j 0 hj
  have hkb := hK (K.getD j 0) hk
  have hkt : (K.getD j 0).toNat < (flatnonzero m).length := by omega
  have hpmem := listGetD_mem (flatnonzero m) (K.getD j 0).toNat 0 hkt
  have hpb := flatnonzero_mem m ((flatnonzero m).getD (K.getD j 0).toNat 0) hpmem
  have hL := getitem_int_ok
    (⟨s.dataset, K.map (fun i => ((flatnonzero m).map
      (fun p => s.indices_.getD p.toNat 0)).getD i.toNat 0)⟩ : SliceDataset α)
    (j : Int) (by simp only [List.length_map]; omega) (by simp only [List.length_map]; omega)
  simp only [npNormIdx_of_nonneg _ _ (Int.natCast_nonneg j), castToNat] at hL
  rw [hL]
  have hPj : (K.map (fun i => (flatnonzero m).getD i.toNat 0)).getD j 0 =
      (flatnonzero m).getD (K.getD j 0).toNat 0 :=
    listGetD_map (fun i => (flatnonzero m).getD i.toNat 0) K j 0 0 hj
  rw [hPj]
  have hR := getitem_int_ok s ((flatnonzero m).getD (K.getD j 0).toNat 0)
    (by omega) (by omega)
  rw [hR, npNormIdx_of_nonneg _ _ hpb.1]
  have hv : (K.map (fun i => ((flatnonzero m).map
        (fun p => s.indices_.getD p.toNat 0)).getD i.toNat 0)).getD j 0 =
      s.indices_.getD ((flatnonzero m).getD (K.getD j 0).toNat 0).toNat 0 := by
    rw [listGetD_map (fun i => ((flatnonzero m).map
      (fun p => s.indices_.getD p.toNat 0)).getD i.toNat 0) K j 0 0 hj]
    exact listGetD_map (fun p => s.indices_.getD p.toNat 0) (flatnonzero m)
      (K.getD j 0).toNat 0 0 hkt
  rw [hv]

/-- C2 (amended): for a `SliceDataset`, a boolean mask of matching length,
and a slice object whose step is nonzero, mask indexing yields a
`SliceDataset`, slicing that view yields another `SliceDataset`, and
integer-indexing the final view agrees position-by-position with
integer-indexing the original dataset at the positions selected by the mask
restricted by the slice.  (A slice object with step `0` instead raises
`ValueError` from the numpy slicing, so the original claim's quantification
over every slice object fails.) -/
theorem C2_mask_then_slice {α : Type} (s : SliceDataset α) (m : List Bool) (sl : PySlice)
    (hm : m.length = s.len) (hstep : sl.step ≠ some 0) :
    ∃ (s1 s2 : SliceDataset α) (P : List Int),
      s.getitem (.array (.bools [m.length] m)) = .ok (.view s1) ∧
      s1.getitem (.slice sl) = .ok (.view s2) ∧
      selectedPositions m sl = .ok P ∧
      s2.len = P.length ∧
      ∀ j : Nat, j < s2.len → s2.getitem (.int (j : Int)) = s.getitem (.int (P.getD j 0)) := by
  have hstep' : sl.step.getD 1 ≠ 0 := by
    cases hs : sl.step with
    | none => simp
    | some k =>
      simp only [Option.getD_some]
      intro hk
      exact hstep (by rw [hs, hk])
  have hlen : m.length = s.indices_.length := hm
  have hF : ∀ p ∈ flatnonzero m, 0 ≤ p ∧ p < (s.indices_.length : Int) := fun p hp => by
    have := flatnonzero_mem m p hp
    omega
  have hmask := getitem_array_ok_nonneg s (.bools [m.length] m) rfl (fun p hp => hF p hp)
  have hslice := getitem_slice_ok
    (⟨s.dataset, (flatnonzero m).map (fun p => s.indices_.getD p.toNat 0)⟩ : SliceDataset α)
    sl hstep'
  simp only [List.length_map] at hslice
  have hsel := listSlice_ok (flatnonzero m) sl hstep'
  have hKmem : ∀ k ∈ sliceIndicesAux (sliceStartOf (flatnonzero m).length sl)
      (sliceStopOf (flatnonzero m).length sl) (sl.step.getD 1) ((flatnonzero m).length + 1),
      0 ≤ k ∧ k < ((flatnonzero m).length : Int) := fun k hk =>
    pySliceIdx_mem (flatnonzero m).length sl _ k (pySliceIdx_ok (flatnonzero m).length sl hstep') hk
  refine ⟨_, _, _, hmask, hslice, hsel, ?_, ?_⟩
  · simp [SliceDataset.len, List.length_map]
  · intro j hj
    have hjK : j < (sliceIndicesAux (sliceStartOf (flatnonzero m).length sl)
        (sliceStopOf (flatnonzero m).length sl) (sl.step.getD 1)
        ((flatnonzero m).length + 1)).length := by
      simpa [SliceDataset.len, List.length_map] using hj
    exact mask_slice_core s m _ hlen hKmem j hjK

/-- C2 counterexample: a `slice(None, None, 0)` object applied after a
matching boolean mask raises `ValueError` instead of yielding a further
`SliceDataset`, refuting the claim's quantification over every slice
object. -/
theorem C2_mask_then_slice_counterexample :
    SliceDataset.getitem (⟨dsOne, [0]⟩ : SliceDataset Nat) (.array (.bools [1] [true])) =
      .ok (.view ⟨dsOne, [0]⟩) ∧
    SliceDataset.getitem (⟨dsOne, [0]⟩ : SliceDataset Nat) (.slice ⟨none, none, some 0⟩) =
      .error .valueError :=
  ⟨rfl, rfl⟩

theorem C2_mask_then_slice_witness :
    ([true, false, true].length = sFix.len ∧
      (⟨none, none, some (-1)⟩ : PySlice).step ≠ some 0) ∧
    (∃ (s1 s2 : SliceDataset Nat) (P : List Int),
      sFix.getitem (.array (.bools [[true, false, true].length] [true, false, true])) =
        .ok (.view s1) ∧
      s1.getitem (.slice ⟨none, none, some (-1)⟩) = .ok (.view s2) ∧
      selectedPositions [true, false, true] ⟨none, none, some (-1)⟩ = .ok P ∧
      s2.len = P.length ∧
      ∀ j : Nat, j < s2.len →
        s2.getitem (.int (j : Int)) = sFix.getitem (.int (P.getD j 0))) :=
  ⟨⟨by decide, by decide⟩,
   C2_mask_then_slice sFix [true, false, true] ⟨none, none, some (-1)⟩ (by decide) (by decide)⟩

/-! ### Store model for `_tsdataset.py`

Python lists and encoder objects are mutable; `TimeseriesDataset` mutates a
role list in place and `from_parameters` deep-copies parameters, so object
identity is observable.  Lists of column names and encoder objects are
modelled as references into an explicit store. -/

/-- Modelled from the external `pytorch_forecasting.data.encoders`
collaborator (and the `Transformer` protocol of the absent
`deepts.preprocessing` module): an encoder's observable configuration and
fitted state — for `NaNLabelEncoder(warn=True)` the `warn` flag and the
fitted classes. -/
structure Encoder where
  warn : Bool
  classes : List String
deriving DecidableEq, Repr

/-- Modelled from the spec: `deepts.preprocessing.IdentityTransformer` (the
`deepts.preprocessing` module is not under `src/`), an identity/no-op
transformer with no configuration of its own. -/
inductive IdentityTransformer
  | mk
deriving DecidableEq, Repr

/-- The store: a heap of string-list objects and a heap of encoder objects,
with bump allocation. -/
structure Store where
  heap : Nat → List String
  eheap : Nat → Encoder
  next : Nat
  enext : Nat

def Store.read (σ : Store) (r : Nat) : List String :=
  σ.heap r

def Store.eread (σ : Store) (r : Nat) : Encoder :=
  σ.eheap r

def Store.write (σ : Store) (r : Nat) (v : List String) : Store :=
  ⟨fun x => if x = r then v else σ.heap x, σ.eheap, σ.next, σ.enext⟩

def Store.alloc (σ : Store) (v : List String) : Store × Nat :=
  (⟨fun x => if x = σ.next then v else σ.heap x, σ.eheap, σ.next + 1, σ.enext⟩, σ.next)

def Store.ealloc (σ : Store) (e : Encoder) : Store × Nat :=
  (⟨σ.heap, fun x => if x = σ.enext then e else σ.eheap x, σ.next, σ.enext + 1⟩, σ.enext)

/-- A list argument (`None` or a reference) is valid in a store when the
reference it may hold was allocated there. -/
def Store.ovalid (σ : Store) : Option Nat → Bool
  | none => true
  | some r => r < σ.next

/-- The store with no allocated objects, used by concrete instances. -/
def emptyStore : Store :=
  ⟨fun _ => [], fun _ => ⟨true, []⟩, 0, 0⟩

/-- The Python value of the `target` argument: a single column name or a
reference to a list of column names. -/
inductive PyTarget
  | str (s : String)
  | lst (r : Nat)
deriving DecidableEq, Repr

/-- Embedding of `none_or_empty` in `TimeseriesFeatures.__post_init__`:
`ls or []` returns `ls` itself when it is a truthy (non-empty) list and a
freshly allocated empty list when `ls` is `None` or empty. -/
def noneOrEmpty (σ : Store) : Option Nat → Store × Nat
  | none => σ.alloc []
  | some r => if σ.read r = [] then σ.alloc [] else (σ, r)

/-- The `target` field also passes through `none_or_empty` (it is one of
`vars(self)`): a falsy target — the empty string or an empty list — becomes
a freshly allocated empty list; truthy targets are returned unchanged. -/
def normTarget (σ : Store) : PyTarget → Store × PyTarget
  | .str s =>
    if s = "" then
      let p := σ.alloc []
      (p.1, .lst p.2)
    else (σ, .str s)
  | .lst r =>
    if σ.read r = [] then
      let p := σ.alloc []
      (p.1, .lst p.2)
    else (σ, .lst r)

/-- The state of a `TimeseriesFeatures` dataclass after `__post_init__`:
every role attribute holds a list object (a reference). -/
structure TimeseriesFeatures where
  target : PyTarget
  static_categoricals : Nat
  static_reals : Nat
  time_varying_known_categoricals : Nat
  time_varying_known_reals : Nat
  time_varying_unknown_categoricals : Nat
  time_varying_unknown_reals : Nat
deriving DecidableEq, Repr

/-- Embedding of the `TimeseriesFeatures` constructor followed by
`__post_init__`: each attribute is normalised with `none_or_empty` in
dataclass field order. -/
def TimeseriesFeatures.make (σ : Store) (target : PyTarget)
    (static_categoricals static_reals time_varying_known_categoricals
     time_varying_known_reals time_varying_unknown_categoricals
     time_varying_unknown_reals : Option Nat) : Store × TimeseriesFeatures :=
  let p0 := normTarget σ target
  let p1 := noneOrEmpty p0.1 static_categoricals
  let p2 := noneOrEmpty p1.1 static_reals
  let p3 := noneOrEmpty p2.1 time_varying_known_categoricals
  let p4 := noneOrEmpty p3.1 time_varying_known_reals
  let p5 := noneOrEmpty p4.1 time_varying_unknown_categoricals
  let p6 := noneOrEmpty p5.1 time_varying_unknown_reals
  (p6.1, ⟨p0.2, p1.2, p2.2, p3.2, p4.2, p5.2, p6.2⟩)

/-- Embedding of `TimeseriesFeatures.target_names`: `target` itself when it
is a list, `[target]` when it is a string. -/
def TimeseriesFeatures.target_names (σ : Store) (f : TimeseriesFeatures) : List String :=
  match f.target with
  | .lst r => σ.read r
  | .str s => [s]

/-- Embedding of `TimeseriesFeatures.reals`: static, then known, then
unknown continuous variables. -/
def TimeseriesFeatures.reals (σ : Store) (f : TimeseriesFeatures) : List String :=
  σ.read f.static_reals ++ σ.read f.time_varying_known_reals ++
    σ.read f.time_varying_unknown_reals

/-- Embedding of `TimeseriesFeatures.categoricals`: static, then known,
then unknown categorical variables. -/
def TimeseriesFeatures.categoricals (σ : Store) (f : TimeseriesFeatures) : List String :=
  σ.read f.static_categoricals ++ σ.read f.time_varying_known_categoricals ++
    σ.read f.time_varying_unknown_categoricals

/-- The value (not the reference) of a target. -/
inductive TargetVal
  | str (s : String)
  | lst (xs : List String)
deriving DecidableEq, Repr

def PyTarget.val (σ : Store) : PyTarget → TargetVal
  | .str s => .str s
  | .lst r => .lst (σ.read r)

/-- The values `dataclasses.asdict` extracts from a `TimeseriesFeatures`
(`as_dict`): plain copies of the attribute values. -/
structure FeatureVals where
  target : TargetVal
  static_categoricals : List String
  static_reals : List String
  time_varying_known_categoricals : List String
  time_varying_known_reals : List String
  time_varying_unknown_categoricals : List String
  time_varying_unknown_reals : List String
deriving DecidableEq, Repr

/-- Embedding of `TimeseriesFeatures.as_dict`. -/
def TimeseriesFeatures.asDict (σ : Store) (f : TimeseriesFeatures) : FeatureVals :=
  ⟨f.target.val σ, σ.read f.static_categoricals, σ.read f.static_reals,
   σ.read f.time_varying_known_categoricals, σ.read f.time_varying_known_reals,
   σ.read f.time_varying_unknown_categoricals, σ.read f.time_varying_unknown_reals⟩

/-- Insertion into a Python dict modelled as an insertion-ordered
association list: an existing key is updated in place, a new key is
appended. -/
def dictInsert {β : Type} (d : List (String × β)) (k : String) (v : β) : List (String × β) :=
  if d.any (fun kv => kv.1 = k) then
    d.map (fun kv => if kv.1 = k then (k, v) else kv)
  else d ++ [(k, v)]

/-- A Python dict from categorical column name to an encoder object. -/
abbrev EncDict := List (String × Nat)

/-- Helper for `get_default_encoders`: the dict comprehension allocates a
fresh `NaNLabelEncoder(warn=True)` per iteration. -/
def getDefaultEncodersAux (σ : Store) (acc : EncDict) : List String → Store × EncDict
  | [] => (σ, acc)
  | c :: cs =>
    let p := σ.ealloc ⟨true, []⟩
    getDefaultEncodersAux p.1 (dictInsert acc c p.2) cs

/-- Embedding of `TimeseriesDataset.get_default_encoders`: a fresh
`NaNLabelEncoder(warn=True)` for every categorical feature. -/
def getDefaultEncoders (σ : Store) (f : TimeseriesFeatures) : Store × EncDict :=
  getDefaultEncodersAux σ [] (f.categoricals σ)

/-- Embedding of the dict comprehension in
`TimeseriesDataset.get_default_scalers`: an `IdentityTransformer` for every
real variable that is not a target name. -/
def getDefaultScalersList (reals targets : List String) :
    List (String × IdentityTransformer) :=
  (reals.filter (fun r => decide (r ∉ targets))).foldl
    (fun d r => dictInsert d r .mk) []

/-- Value of the `randomize_length` argument (`None`, a bool, or a float
pair; the float payload is only passed through and is not carried). -/
inductive RandomizeLength
  | noneV
  | boolV (b : Bool)
  | tupleV
deriving DecidableEq, Repr

/-- Opaque dataframe contents: the wrapper never inspects the dataframe, it
only hands it to the external windowing dataset. -/
structure DataFrame where
  rows : List (List String)
deriving DecidableEq, Repr

/-- The arguments the wrapper passes to the external
`pytorch_forecasting.data.timeseries.TimeSeriesDataSet` constructor (the
external collaborator itself is a black box; only what the wrapper sends it
is recorded). -/
structure PTFDataset where
  data : DataFrame
  time_idx : String
  group_ids : List String
  max_prediction_length : Int
  max_encoder_length : Int
  min_encoder_length : Option Int
  min_prediction_length : Option Int
  randomize_length : RandomizeLength
  scalers : List (String × IdentityTransformer)
  categorical_encoders : EncDict
  predict_mode : Bool
  featureVals : FeatureVals
deriving DecidableEq, Repr

/-- The state of a `TimeseriesDataset` after `__init__`: the raw
constructor arguments stored as attributes, the `features` record, the
`categorical_encoders` attribute, and the created external dataset. -/
structure TimeseriesDataset where
  time_idx : String
  target : PyTarget
  group_ids : Nat
  max_encoder_length : Int
  min_encoder_length : Option Int
  min_prediction_length : Option Int
  max_prediction_length : Int
  static_categoricals : Option Nat
  static_reals : Option Nat
  time_varying_known_categoricals : Option Nat
  time_varying_known_reals : Option Nat
  time_varying_unknown_categoricals : Option Nat
  time_varying_unknown_reals : Option Nat
  randomize_length : RandomizeLength
  add_encoder_length : Bool
  predict_mode : Bool
  features : TimeseriesFeatures
  categorical_encoders : EncDict
  pf : PTFDataset
deriving DecidableEq, Repr

/-- Embedding of `categorical_encoders or self.get_default_encoders()`: a
falsy argument (`None` or an empty dict) is replaced by the defaults. -/
def chooseEncoders (σ : Store) (f : TimeseriesFeatures) :
    Option EncDict → Store × EncDict
  | some d => if d = [] then getDefaultEncoders σ f else (σ, d)
  | none => getDefaultEncoders σ f

/-- Embedding of the guarded append in
`_create_pytorch_forecasting_ds`: when `add_encoder_length` holds and
`'encoder_length'` is not among the real features, `'encoder_length'` is
appended in place to the `static_reals` list object of `features`. -/
def appendEncoderLength (σ : Store) (f : TimeseriesFeatures) (add : Bool) : Store :=
  if add = true ∧ "encoder_length" ∉ f.reals σ then
    σ.write f.static_reals (σ.read f.static_reals ++ ["encoder_length"])
  else σ

/-- Embedding of `TimeseriesDataset.__init__` (including
`_create_pytorch_forecasting_ds`): attributes are stored, `features` is
built, encoders are chosen, the encoder-length append may run, and the
external dataset is created with the default scalers computed after the
append. -/
def TimeseriesDataset.make (σ : Store) (data : DataFrame) (time_idx : String)
    (target : PyTarget) (group_ids : Nat) (max_encoder_length : Int)
    (min_encoder_length min_prediction_length : Option Int) (max_prediction_length : Int)
    (static_categoricals static_reals time_varying_known_categoricals
     time_varying_known_reals time_varying_unknown_categoricals
     time_varying_unknown_reals : Option Nat)
    (randomize_length : RandomizeLength) (add_encoder_length : Bool)
    (categorical_encoders : Option EncDict) (predict_mode : Bool) :
    Store × TimeseriesDataset :=
  let pfeat := TimeseriesFeatures.make σ target static_categoricals static_reals
    time_varying_known_categoricals time_varying_known_reals
    time_varying_unknown_categoricals time_varying_unknown_reals
  let penc := chooseEncoders pfeat.1 pfeat.2 categorical_encoders
  let σ3 := appendEncoderLength penc.1 pfeat.2 add_encoder_length
  let pf : PTFDataset :=
    ⟨data, time_idx, σ3.read group_ids, max_prediction_length, max_encoder_length,
     min_encoder_length, min_prediction_length, randomize_length,
     getDefaultScalersList (pfeat.2.reals σ3) (pfeat.2.target_names σ3),
     penc.2, predict_mode, pfeat.2.asDict σ3⟩
  (σ3, ⟨time_idx, target, group_ids, max_encoder_length, min_encoder_length,
    min_prediction_length, max_prediction_length, static_categoricals, static_reals,
    time_varying_known_categoricals, time_varying_known_reals,
    time_varying_unknown_categoricals, time_varying_unknown_reals, randomize_length,
    add_encoder_length, predict_mode, pfeat.2, penc.2, pf⟩)

/-- Embedding of `TimeseriesDataset.get_default_scalers` as a method on an
existing dataset. -/
def TimeseriesDataset.get_default_scalers (σ : Store) (d : TimeseriesDataset) :
    List (String × IdentityTransformer) :=
  getDefaultScalersList (d.features.reals σ) (d.features.target_names σ)

/-- The dictionary `get_parameters` returns: every `__init__` signature
parameter except `self` and `data`, read from the attributes of the same
name (so `categorical_encoders` is the possibly defaulted attribute, and
the role entries are the raw argument references). -/
structure Parameters where
  time_idx : String
  target : PyTarget
  group_ids : Nat
  max_encoder_length : Int
  min_encoder_length : Option Int
  min_prediction_length : Option Int
  max_prediction_length : Int
  static_categoricals : Option Nat
  static_reals : Option Nat
  time_varying_known_categoricals : Option Nat
  time_varying_known_reals : Option Nat
  time_varying_unknown_categoricals : Option Nat
  time_varying_unknown_reals : Option Nat
  randomize_length : RandomizeLength
  add_encoder_length : Bool
  categorical_encoders : EncDict
  predict_mode : Bool
deriving DecidableEq, Repr

/-- Embedding of `TimeseriesDataset.get_parameters`. -/
def TimeseriesDataset.get_parameters (d : TimeseriesDataset) : Parameters :=
  ⟨d.time_idx, d.target, d.group_ids, d.max_encoder_length, d.min_encoder_length,
   d.min_prediction_length, d.max_prediction_length, d.static_categoricals,
   d.static_reals, d.time_varying_known_categoricals, d.time_varying_known_reals,
   d.time_varying_unknown_categoricals, d.time_varying_unknown_reals,
   d.randomize_length, d.add_encoder_length, d.categorical_encoders, d.predict_mode⟩

def deepcopyOptRef (σ : Store) : Option Nat → Store × Option Nat
  | none => (σ, none)
  | some r =>
    let p := σ.alloc (σ.read r)
    (p.1, some p.2)

def deepcopyTarget (σ : Store) : PyTarget → Store × PyTarget
  | .str s => (σ, .str s)
  | .lst r =>
    let p := σ.alloc (σ.read r)
    (p.1, .lst p.2)

def deepcopyEncDict (σ : Store) : EncDict → Store × EncDict
  | [] => (σ, [])
  | kv :: rest =>
    let p := σ.ealloc (σ.eread kv.2)
    let q := deepcopyEncDict p.1 rest
    (q.1, (kv.1, p.2) :: q.2)

/-- Embedding of `copy.deepcopy(parameters)` in `from_parameters`: each
list and each encoder object is copied into a fresh object with the same
value.  (The memoisation Python's deepcopy applies when one object occurs
in several fields is not modelled; the theorems below assume the supplied
references are distinct.) -/
def Parameters.deepcopy (σ : Store) (p : Parameters) : Store × Parameters :=
  let g := σ.alloc (σ.read p.group_ids)
  let t := deepcopyTarget g.1 p.target
  let sc := deepcopyOptRef t.1 p.static_categoricals
  let sr := deepcopyOptRef sc.1 p.static_reals
  let kc := deepcopyOptRef sr.1 p.time_varying_known_categoricals
  let kr := deepcopyOptRef kc.1 p.time_varying_known_reals
  let uc := deepcopyOptRef kr.1 p.time_varying_unknown_categoricals
  let ur := deepcopyOptRef uc.1 p.time_varying_unknown_reals
  let ce := deepcopyEncDict ur.1 p.categorical_encoders
  (ce.1, ⟨p.time_idx, t.2, g.2, p.max_encoder_length, p.min_encoder_length,
    p.min_prediction_length, p.max_prediction_length, sc.2, sr.2, kc.2, kr.2, uc.2,
    ur.2, p.randomize_length, p.add_encoder_length, ce.2, p.predict_mode⟩)

/-- Embedding of `TimeseriesDataset.from_parameters` (with no keyword
overrides): the parameters are deep-copied and the constructor is called on
the new dataframe. -/
def TimeseriesDataset.from_parameters (σ : Store) (parameters : Parameters)
    (data : DataFrame) : Store × TimeseriesDataset :=
  let p := parameters.deepcopy σ
  TimeseriesDataset.make p.1 data p.2.time_idx p.2.target p.2.group_ids
    p.2.max_encoder_length p.2.min_encoder_length p.2.min_prediction_length
    p.2.max_prediction_length p.2.static_categoricals p.2.static_reals
    p.2.time_varying_known_categoricals p.2.time_varying_known_reals
    p.2.time_varying_unknown_categoricals p.2.time_varying_unknown_reals
    p.2.randomize_length p.2.add_encoder_length (some p.2.categorical_encoders)
    p.2.predict_mode

/-! ### Value-level descriptions of the construction -/

/-- The value `none_or_empty` leaves in a role attribute: the empty list
for `None`, the referenced list otherwise. -/
def normVal (σ : Store) : Option Nat → List String
  | none => []
  | some r => σ.read r

/-- The value `target_names` yields after normalisation. -/
def targetNamesVal (σ : Store) : PyTarget → List String
  | .str s => if s = "" then [] else [s]
  | .lst r => σ.read r

/-- The value of `features.reals` before any encoder-length append. -/
def realsBeforeVal (σ : Store) (sr tkr tur : Option Nat) : List String :=
  normVal σ sr ++ normVal σ tkr ++ normVal σ tur

/-- The value of `features.categoricals`. -/
def catsVal (σ : Store) (sc tkc tuc : Option Nat) : List String :=
  normVal σ sc ++ normVal σ tkc ++ normVal σ tuc

/-- Whether construction appends `'encoder_length'`. -/
def appendCondB (σ : Store) (add : Bool) (sr tkr tur : Option Nat) : Bool :=
  add && decide ("encoder_length" ∉ realsBeforeVal σ sr tkr tur)

/-- The value of the `static_reals` list of `features` after construction. -/
def srAfterVal (σ : Store) (add : Bool) (sr tkr tur : Option Nat) : List String :=
  normVal σ sr ++ (if appendCondB σ add sr tkr tur then ["encoder_length"] else [])

/-- The value of `features.reals` after construction. -/
def realsAfterVal (σ : Store) (add : Bool) (sr tkr tur : Option Nat) : List String :=
  srAfterVal σ add sr tkr tur ++ normVal σ tkr ++ normVal σ tur

/-- The values of the default encoder dict: a `NaNLabelEncoder(warn=True)`
per categorical. -/
def defaultEncVal (cats : List String) : List (String × Encoder) :=
  cats.foldl (fun d c => dictInsert d c ⟨true, []⟩) []

/-- The value view of an encoder dict: each reference replaced by the
encoder it denotes. -/
def encDictVal (σ : Store) (d : EncDict) : List (String × Encoder) :=
  d.map (fun kv => (kv.1, σ.eread kv.2))

/-! ### Store lemmas -/

/-- `σ'` extends `σ`: only fresh objects were allocated, every existing
object is unchanged. -/
def StoreExt (σ σ' : Store) : Prop :=
  σ.next ≤ σ'.next ∧ σ.enext ≤ σ'.enext ∧
    (∀ r, r < σ.next → σ'.read r = σ.read r) ∧
    (∀ r, r < σ.enext → σ'.eread r = σ.eread r)

theorem StoreExt.refl (σ : Store) : StoreExt σ σ :=
  ⟨le_refl _, le_refl _, fun _ _ => rfl, fun _ _ => rfl⟩

theorem StoreExt.trans {σ1 σ2 σ3 : Store} (h1 : StoreExt σ1 σ2) (h2 : StoreExt σ2 σ3) :
    StoreExt σ1 σ3 :=
  ⟨le_trans h1.1 h2.1, le_trans h1.2.1 h2.2.1,
   fun r hr => (h2.2.2.1 r (lt_of_lt_of_le hr h1.1)).trans (h1.2.2.1 r hr),
   fun r hr => (h2.2.2.2 r (lt_of_lt_of_le hr h1.2.1)).trans (h1.2.2.2 r hr)⟩

theorem Store.alloc_ext (σ : Store) (v : List String) : StoreExt σ (σ.alloc v).1 := by
  refine ⟨by simp [Store.alloc], by simp [Store.alloc], fun r hr => ?_, fun r hr => rfl⟩
  simp only [Store.alloc, Store.read]
  rw [if_neg (by omega)]

theorem Store.ealloc_ext (σ : Store) (e : Encoder) : StoreExt σ (σ.ealloc e).1 := by
  refine ⟨by simp [Store.ealloc], by simp [Store.ealloc], fun r hr => rfl, fun r hr => ?_⟩
  simp only [Store.ealloc, Store.eread]
  rw [if_neg (by omega)]

theorem Store.read_alloc_self (σ : Store) (v : List String) :
    (σ.alloc v).1.read (σ.alloc v).2 = v := by
  simp [Store.alloc, Store.read]

theorem Store.eread_ealloc_self (σ : Store) (e : Encoder) :
    (σ.ealloc e).1.eread (σ.ealloc e).2 = e := by
  simp [Store.ealloc, Store.eread]

theorem Store.alloc_next (σ : Store) (v : List String) :
    (σ.alloc v).1.next = σ.next + 1 := rfl

theorem Store.alloc_ref (σ : Store) (v : List String) : (σ.alloc v).2 = σ.next := rfl

theorem Store.alloc_heap_frame (σ : Store) (v : List String) (r : Nat) (h : r ≠ σ.next) :
    (σ.alloc v).1.read r = σ.read r := by
  simp only [Store.alloc, Store.read]
  rw [if_neg h]

theorem Store.read_write_self (σ : Store) (r : Nat) (v : List String) :
    (σ.write r v).read r = v := by
  simp [Store.write, Store.read]

theorem Store.read_write_ne (σ : Store) (r r' : Nat) (v : List String) (h : r' ≠ r) :
    (σ.write r v).read r' = σ.read r' := by
  simp only [Store.write, Store.read]
  rw [if_neg h]

theorem Store.write_next (σ : Store) (r : Nat) (v : List String) :
    (σ.write r v).next = σ.next := rfl

theorem Store.write_eheap (σ : Store) (r : Nat) (v : List String) :
    (σ.write r v).eread = σ.eread := rfl

theorem Store.write_enext (σ : Store) (r : Nat) (v : List String) :
    (σ.write r v).enext = σ.enext := rfl

theorem Store.ovalid_mono {σ σ' : Store} (h : StoreExt σ σ') (o : Option Nat)
    (ho : σ.ovalid o = true) : σ'.ovalid o = true := by
  cases o with
  | none => rfl
  | some r =>
    simp only [Store.ovalid, decide_eq_true_eq] at ho ⊢
    exact lt_of_lt_of_le ho h.1

theorem normVal_ext {σ σ' : Store} (h : StoreExt σ σ') (o : Option Nat)
    (ho : σ.ovalid o = true) : normVal σ' o = normVal σ o := by
  cases o with
  | none => rfl
  | some r =>
    simp only [Store.ovalid, decide_eq_true_eq] at ho
    simpa [normVal] using h.2.2.1 r ho

/-! ### Lemmas about `none_or_empty` and the target normalisation -/

theorem noneOrEmpty_cases (σ : Store) (o : Option Nat) :
    ((o = none ∨ ∃ r, o = some r ∧ σ.read r = []) ∧ noneOrEmpty σ o = σ.alloc []) ∨
      ∃ r, o = some r ∧ σ.read r ≠ [] ∧ noneOrEmpty σ o = (σ, r) := by
  cases o with
  | none => exact Or.inl ⟨Or.inl rfl, rfl⟩
  | some r =>
    by_cases h : σ.read r = []
    · exact Or.inl ⟨Or.inr ⟨r, rfl, h⟩, by simp [noneOrEmpty, h]⟩
    · exact Or.inr ⟨r, rfl, h, by simp [noneOrEmpty, h]⟩

theorem noneOrEmpty_ext (σ : Store) (o : Option Nat) : StoreExt σ (noneOrEmpty σ o).1 := by
  rcases noneOrEmpty_cases σ o with ⟨-, h⟩ | ⟨r, -, -, h⟩ <;> rw [h]
  · exact σ.alloc_ext []
  · exact StoreExt.refl σ

theorem noneOrEmpty_read_self (σ : Store) (o : Option Nat) :
    (noneOrEmpty σ o).1.read (noneOrEmpty σ o).2 = normVal σ o := by
  cases o with
  | none => simpa [normVal] using σ.read_alloc_self []
  | some r =>
    by_cases h : σ.read r = []
    · have : noneOrEmpty σ (some r) = σ.alloc [] := by simp [noneOrEmpty, h]
      rw [this]
      simp [normVal, h, σ.read_alloc_self []]
    · have : noneOrEmpty σ (some r) = (σ, r) := by simp [noneOrEmpty, h]
      rw [this]
      rfl

theorem noneOrEmpty_ref_lt (σ : Store) (o : Option Nat) (ho : σ.ovalid o = true) :
    (noneOrEmpty σ o).2 < (noneOrEmpty σ o).1.next := by
  rcases noneOrEmpty_cases σ o with ⟨-, h⟩ | ⟨r, hr, -, h⟩ <;> rw [h]
  · simp [Store.alloc]
  · subst hr
    simp only [Store.ovalid, decide_eq_true_eq] at ho
    exact ho

theorem noneOrEmpty_ref_char (σ : Store) (o : Option Nat) :
    ((o = none ∨ ∃ r, o = some r ∧ σ.read r = []) ∧ (noneOrEmpty σ o).2 = σ.next ∧
      (noneOrEmpty σ o).1.next = σ.next + 1) ∨
      ∃ r, o = some r ∧ σ.read r ≠ [] ∧ noneOrEmpty σ o = (σ, r) := by
  rcases noneOrEmpty_cases σ o with ⟨hw, h⟩ | hk
  · exact Or.inl ⟨hw, by rw [h]; rfl, by rw [h]; rfl⟩
  · exact Or.inr hk

theorem normTarget_cases (σ : Store) (t : PyTarget) :
    (∃ s, t = .str s ∧ s ≠ "" ∧ normTarget σ t = (σ, .str s)) ∨
      ((t = .str "" ∨ ∃ r, t = .lst r ∧ σ.read r = []) ∧
        normTarget σ t = ((σ.alloc []).1, .lst (σ.alloc []).2)) ∨
      (∃ r, t = .lst r ∧ σ.read r ≠ [] ∧ normTarget σ t = (σ, .lst r)) := by
  cases t with
  | str s =>
    by_cases h : s = ""
    · exact Or.inr (Or.inl ⟨Or.inl (by rw [h]), by simp [normTarget, h]⟩)
    · exact Or.inl ⟨s, rfl, h, by simp [normTarget, h]⟩
  | lst r =>
    by_cases h : σ.read r = []
    · exact Or.inr (Or.inl ⟨Or.inr ⟨r, rfl, h⟩, by simp [normTarget, h]⟩)
    · exact Or.inr (Or.inr ⟨r, rfl, h, by simp [normTarget, h]⟩)

theorem normTarget_ext (σ : Store) (t : PyTarget) : StoreExt σ (normTarget σ t).1 := by
  rcases normTarget_cases σ t with ⟨s, -, -, h⟩ | ⟨-, h⟩ | ⟨r, -, -, h⟩ <;> rw [h]
  · exact StoreExt.refl σ
  · exact σ.alloc_ext []
  · exact StoreExt.refl σ

/-- Validity of the target value in a store. -/
def Store.tvalidB (σ : Store) : PyTarget → Bool
  | .str _ => true
  | .lst r => r < σ.next

/-- Distinctness of a caller-supplied, kept `static_reals` list from the
other role arguments (when the same list object is passed for two roles the
in-place append would alias; the theorems assume it is not). -/
def srDistinctB (σ : Store) (t : PyTarget) (sc sr tkc tkr tuc tur : Option Nat) : Bool :=
  match sr with
  | none => true
  | some rr =>
    decide (σ.read rr = []) ||
      (decide (sc ≠ some rr) && decide (tkc ≠ some rr) && decide (tkr ≠ some rr) &&
        decide (tuc ≠ some rr) && decide (tur ≠ some rr) && decide (t ≠ PyTarget.lst rr))

theorem featuresMake_spec (σ : Store) (t : PyTarget) (sc sr tkc tkr tuc tur : Option Nat)
    (σf : Store) (f : TimeseriesFeatures)
    (heq : TimeseriesFeatures.make σ t sc sr tkc tkr tuc tur = (σf, f))
    (hsc : σ.ovalid sc = true) (hsr : σ.ovalid sr = true) (htkc : σ.ovalid tkc = true)
    (htkr : σ.ovalid tkr = true) (htuc : σ.ovalid tuc = true) (htur : σ.ovalid tur = true)
    (ht : σ.tvalidB t = true) :
    StoreExt σ σf ∧
    σf.read f.static_categoricals = normVal σ sc ∧
    σf.read f.static_reals = normVal σ sr ∧
    σf.read f.time_varying_known_categoricals = normVal σ tkc ∧
    σf.read f.time_varying_known_reals = normVal σ tkr ∧
    σf.read f.time_varying_unknown_categoricals = normVal σ tuc ∧
    σf.read f.time_varying_unknown_reals = normVal σ tur ∧
    f.target_names σf = targetNamesVal σ t ∧
    (∀ r, sr = some r → σ.read r ≠ [] → f.static_reals = r) ∧
    (σ.next ≤ f.static_reals ∨ ∃ r, sr = some r ∧ σ.read r ≠ [] ∧ f.static_reals = r) := by
  rcases hP0 : normTarget σ t with ⟨σ0, tg⟩
  rcases hP1 : noneOrEmpty σ0 sc with ⟨σ1, rsc⟩
  rcases hP2 : noneOrEmpty σ1 sr with ⟨σ2, rsr⟩
  rcases hP3 : noneOrEmpty σ2 tkc with ⟨σ3, rtkc⟩
  rcases hP4 : noneOrEmpty σ3 tkr with ⟨σ4, rtkr⟩
  rcases hP5 : noneOrEmpty σ4 tuc with ⟨σ5, rtuc⟩
  rcases hP6 : noneOrEmpty σ5 tur with ⟨σ6, rtur⟩
  have hmk : TimeseriesFeatures.make σ t sc sr tkc tkr tuc tur =
      (σ6, ⟨tg, rsc, rsr, rtkc, rtkr, rtuc, rtur⟩) := by
    simp only [TimeseriesFeatures.make, hP0, hP1, hP2, hP3, hP4, hP5, hP6]
  rw [hmk] at heq
  injection heq with h1 h2
  subst h1
  subst h2
  have e0 : StoreExt σ σ0 := by have := normTarget_ext σ t; rwa [hP0] at this
  have e1 : StoreExt σ0 σ1 := by have := noneOrEmpty_ext σ0 sc; rwa [hP1] at this
  have e2 : StoreExt σ1 σ2 := by have := noneOrEmpty_ext σ1 sr; rwa [hP2] at this
  have e3 : StoreExt σ2 σ3 := by have := noneOrEmpty_ext σ2 tkc; rwa [hP3] at this
  have e4 : StoreExt σ3 σ4 := by have := noneOrEmpty_ext σ3 tkr; rwa [hP4] at this
  have e5 : StoreExt σ4 σ5 := by have := noneOrEmpty_ext σ4 tuc; rwa [hP5] at this
  have e6 : StoreExt σ5 σ6 := by have := noneOrEmpty_ext σ5 tur; rwa [hP6] at this
  have E1 : StoreExt σ σ1 := e0.trans e1
  have E2 : StoreExt σ σ2 := E1.trans e2
  have E3 : StoreExt σ σ3 := E2.trans e3
  have E4 : StoreExt σ σ4 := E3.trans e4
  have E5 : StoreExt σ σ5 := E4.trans e5
  have EA : StoreExt σ σ6 := E5.trans e6
  have S5 : StoreExt σ5 σ6 := e6
  have S4 : StoreExt σ4 σ6 := e5.trans S5
  have S3 : StoreExt σ3 σ6 := e4.trans S4
  have S2 : StoreExt σ2 σ6 := e3.trans S3
  have S1 : StoreExt σ1 σ6 := e2.trans S2
  have S0 : StoreExt σ0 σ6 := e1.trans S1
  have vsc : σ0.ovalid sc = true := Store.ovalid_mono e0 sc hsc
  have vsr : σ1.ovalid sr = true := Store.ovalid_mono E1 sr hsr
  have vtkc : σ2.ovalid tkc = true := Store.ovalid_mono E2 tkc htkc
  have vtkr : σ3.ovalid tkr = true := Store.ovalid_mono E3 tkr htkr
  have vtuc : σ4.ovalid tuc = true := Store.ovalid_mono E4 tuc htuc
  have vtur : σ5.ovalid tur = true := Store.ovalid_mono E5 tur htur
  have bsc : rsc < σ1.next := by have := noneOrEmpty_ref_lt σ0 sc vsc; rwa [hP1] at this
  have bsr : rsr < σ2.next := by have := noneOrEmpty_ref_lt σ1 sr vsr; rwa [hP2] at this
  have btkc : rtkc < σ3.next := by have := noneOrEmpty_ref_lt σ2 tkc vtkc; rwa [hP3] at this
  have btkr : rtkr < σ4.next := by have := noneOrEmpty_ref_lt σ3 tkr vtkr; rwa [hP4] at this
  have btuc : rtuc < σ5.next := by have := noneOrEmpty_ref_lt σ4 tuc vtuc; rwa [hP5] at this
  have hvlt : ∀ (o : Option Nat), σ.ovalid o = true → ∀ r, o = some r → r < σ.next := by
    intro o ho r h
    rw [h] at ho
    simp only [Store.ovalid, decide_eq_true_eq] at ho
    exact ho
  have hkept2 : ∀ r, sr = some r → σ1.read r = σ.read r :=
    fun r h => E1.2.2.1 r (hvlt sr hsr r h)
  have c2 := noneOrEmpty_ref_char σ1 sr
  simp only [hP2, Prod.mk.injEq] at c2
  have n0 : σ.next ≤ σ0.next := e0.1
  have n1 : σ0.next ≤ σ1.next := e1.1
  have n2 : σ1.next ≤ σ2.next := e2.1
  have n3 : σ2.next ≤ σ3.next := e3.1
  have n4 : σ3.next ≤ σ4.next := e4.1
  have n5 : σ4.next ≤ σ5.next := e5.1
  have Rsc : σ6.read rsc = normVal σ sc := by
    have hself := noneOrEmpty_read_self σ0 sc
    rw [hP1] at hself
    rw [S1.2.2.1 rsc bsc, hself]
    exact normVal_ext e0 sc hsc
  have Rsr : σ6.read rsr = normVal σ sr := by
    have hself := noneOrEmpty_read_self σ1 sr
    rw [hP2] at hself
    rw [S2.2.2.1 rsr bsr, hself]
    exact normVal_ext E1 sr hsr
  have Rtkc : σ6.read rtkc = normVal σ tkc := by
    have hself := noneOrEmpty_read_self σ2 tkc
    rw [hP3] at hself
    rw [S3.2.2.1 rtkc btkc, hself]
    exact normVal_ext E2 tkc htkc
  have Rtkr : σ6.read rtkr = normVal σ tkr := by
    have hself := noneOrEmpty_read_self σ3 tkr
    rw [hP4] at hself
    rw [S4.2.2.1 rtkr btkr, hself]
    exact normVal_ext E3 tkr htkr
  have Rtuc : σ6.read rtuc = normVal σ tuc := by
    have hself := noneOrEmpty_read_self σ4 tuc
    rw [hP5] at hself
    rw [S5.2.2.1 rtuc btuc, hself]
    exact normVal_ext E4 tuc htuc
  have Rtur : σ6.read rtur = normVal σ tur := by
    have hself := noneOrEmpty_read_self σ5 tur
    rw [hP6] at hself
    rw [hself]
    exact normVal_ext E5 tur htur
  have Ckept2 : ∀ r, sr = some r → σ.read r ≠ [] → rsr = r := by
    intro r hsr2 hre
    rcases c2 with ⟨hw, -, -⟩ | ⟨r2, hsr3, hne, -, hr2⟩
    · rcases hw with h9 | ⟨r2, h9, hrd⟩
      · rw [hsr2] at h9
        exact Option.noConfusion h9
      · rw [hsr2] at h9
        injection h9 with h9
        subst h9
        rw [hkept2 r hsr2] at hrd
        exact absurd hrd hre
    · rw [hsr2] at hsr3
      injection hsr3 with h9
      rw [hr2, ← h9]
  have Ckept : σ.next ≤ rsr ∨ ∃ r, sr = some r ∧ σ.read r ≠ [] ∧ rsr = r := by
    rcases c2 with ⟨-, hr2, -⟩ | ⟨r, hsr2, hne, -, hr2⟩
    · left
      omega
    · right
      exact ⟨r, hsr2, by rwa [hkept2 r hsr2] at hne, hr2⟩
  have Rt : TimeseriesFeatures.target_names σ6 ⟨tg, rsc, rsr, rtkc, rtkr, rtuc, rtur⟩ =
      targetNamesVal σ t := by
    rcases normTarget_cases σ t with ⟨s, hts, hne, hT⟩ | ⟨hsh, hT⟩ | ⟨r, htr, hne, hT⟩
    · simp only [hP0, Prod.mk.injEq] at hT
      rw [hT.2]
      subst hts
      show [s] = targetNamesVal σ (.str s)
      simp [targetNamesVal, hne]
    · simp only [hP0, Prod.mk.injEq] at hT
      rw [hT.2]
      have hlt : (σ.alloc []).2 < σ0.next := by
        rw [hT.1, Store.alloc_ref, Store.alloc_next]
        omega
      have hrd : σ0.read (σ.alloc []).2 = [] := by
        rw [hT.1]
        exact σ.read_alloc_self []
      have hread : σ6.read (σ.alloc []).2 = [] := by
        rw [S0.2.2.1 _ hlt, hrd]
      show σ6.read (σ.alloc []).2 = targetNamesVal σ t
      rw [hread]
      rcases hsh with h9 | ⟨r, htr, hre⟩
      · rw [h9]
        rfl
      · rw [htr]
        simp [targetNamesVal, hre]
    · simp only [hP0, Prod.mk.injEq] at hT
      rw [hT.2]
      have hlt : r < σ.next := by
        rw [htr] at ht
        simp only [Store.tvalidB, decide_eq_true_eq] at ht
        exact ht
      have hread : σ6.read r = σ.read r := EA.2.2.1 r hlt
      rw [htr]
      show σ6.read r = targetNamesVal σ (.lst r)
      exact hread
  exact ⟨EA, Rsc, Rsr, Rtkc, Rtkr, Rtuc, Rtur, Rt, Ckept2, Ckept⟩

theorem featuresMake_distinct (σ : Store) (t : PyTarget)
    (sc sr tkc tkr tuc tur : Option Nat) (σf : Store) (f : TimeseriesFeatures)
    (heq : TimeseriesFeatures.make σ t sc sr tkc tkr tuc tur = (σf, f))
    (hsc : σ.ovalid sc = true) (hsr : σ.ovalid sr = true) (htkc : σ.ovalid tkc = true)
    (htkr : σ.ovalid tkr = true) (htuc : σ.ovalid tuc = true) (htur : σ.ovalid tur = true)
    (ht : σ.tvalidB t = true)
    (hdist : srDistinctB σ t sc sr tkc tkr tuc tur = true) :
    (f.static_reals ≠ f.static_categoricals ∧
      f.static_reals ≠ f.time_varying_known_categoricals ∧
      f.static_reals ≠ f.time_varying_known_reals ∧
      f.static_reals ≠ f.time_varying_unknown_categoricals ∧
      f.static_reals ≠ f.time_varying_unknown_reals) ∧
    (∀ r, f.target = .lst r → r ≠ f.static_reals) := by
  rcases hP0 : normTarget σ t with ⟨σ0, tg⟩
  rcases hP1 : noneOrEmpty σ0 sc with ⟨σ1, rsc⟩
  rcases hP2 : noneOrEmpty σ1 sr with ⟨σ2, rsr⟩
  rcases hP3 : noneOrEmpty σ2 tkc with ⟨σ3, rtkc⟩
  rcases hP4 : noneOrEmpty σ3 tkr with ⟨σ4, rtkr⟩
  rcases hP5 : noneOrEmpty σ4 tuc with ⟨σ5, rtuc⟩
  rcases hP6 : noneOrEmpty σ5 tur with ⟨σ6, rtur⟩
  have hmk : TimeseriesFeatures.make σ t sc sr tkc tkr tuc tur =
      (σ6, ⟨tg, rsc, rsr, rtkc, rtkr, rtuc, rtur⟩) := by
    simp only [TimeseriesFeatures.make, hP0, hP1, hP2, hP3, hP4, hP5, hP6]
  rw [hmk] at heq
  injection heq with h1 h2
  subst h1
  subst h2
  have e0 : StoreExt σ σ0 := by have := normTarget_ext σ t; rwa [hP0] at this
  have e1 : StoreExt σ0 σ1 := by have := noneOrEmpty_ext σ0 sc; rwa [hP1] at this
  have e2 : StoreExt σ1 σ2 := by have := noneOrEmpty_ext σ1 sr; rwa [hP2] at this
  have e3 : StoreExt σ2 σ3 := by have := noneOrEmpty_ext σ2 tkc; rwa [hP3] at this
  have e4 : StoreExt σ3 σ4 := by have := noneOrEmpty_ext σ3 tkr; rwa [hP4] at this
  have e5 : StoreExt σ4 σ5 := by have := noneOrEmpty_ext σ4 tuc; rwa [hP5] at this
  have e6 : StoreExt σ5 σ6 := by have := noneOrEmpty_ext σ5 tur; rwa [hP6] at this
  have E1 : StoreExt σ σ1 := e0.trans e1
  have E2 : StoreExt σ σ2 := E1.trans e2
  have E3 : StoreExt σ σ3 := E2.trans e3
  have E4 : StoreExt σ σ4 := E3.trans e4
  have E5 : StoreExt σ σ5 := E4.trans e5
  have EA : StoreExt σ σ6 := E5.trans e6
  have S5 : StoreExt σ5 σ6 := e6
  have S4 : StoreExt σ4 σ6 := e5.trans S5
  have S3 : StoreExt σ3 σ6 := e4.trans S4
  have S2 : StoreExt σ2 σ6 := e3.trans S3
  have S1 : StoreExt σ1 σ6 := e2.trans S2
  have S0 : StoreExt σ0 σ6 := e1.trans S1
  have vsc : σ0.ovalid sc = true := Store.ovalid_mono e0 sc hsc
  have vsr : σ1.ovalid sr = true := Store.ovalid_mono E1 sr hsr
  have vtkc : σ2.ovalid tkc = true := Store.ovalid_mono E2 tkc htkc
  have vtkr : σ3.ovalid tkr = true := Store.ovalid_mono E3 tkr htkr
  have vtuc : σ4.ovalid tuc = true := Store.ovalid_mono E4 tuc htuc
  have vtur : σ5.ovalid tur = true := Store.ovalid_mono E5 tur htur
  have bsc : rsc < σ1.next := by have := noneOrEmpty_ref_lt σ0 sc vsc; rwa [hP1] at this
  have bsr : rsr < σ2.next := by have := noneOrEmpty_ref_lt σ1 sr vsr; rwa [hP2] at this
  have btkc : rtkc < σ3.next := by have := noneOrEmpty_ref_lt σ2 tkc vtkc; rwa [hP3] at this
  have btkr : rtkr < σ4.next := by have := noneOrEmpty_ref_lt σ3 tkr vtkr; rwa [hP4] at this
  have btuc : rtuc < σ5.next := by have := noneOrEmpty_ref_lt σ4 tuc vtuc; rwa [hP5] at this
  have hvlt : ∀ (o : Option Nat), σ.ovalid o = true → ∀ r, o = some r → r < σ.next := by
    intro o ho r h
    rw [h] at ho
    simp only [Store.ovalid, decide_eq_true_eq] at ho
    exact ho
  have hkept2 : ∀ r, sr = some r → σ1.read r = σ.read r :=
    fun r h => E1.2.2.1 r (hvlt sr hsr r h)
  have c2 := noneOrEmpty_ref_char σ1 sr
  simp only [hP2, Prod.mk.injEq] at c2
  have n0 : σ.next ≤ σ0.next := e0.1
  have n1 : σ0.next ≤ σ1.next := e1.1
  have n2 : σ1.next ≤ σ2.next := e2.1
  have n3 : σ2.next ≤ σ3.next := e3.1
  have n4 : σ3.next ≤ σ4.next := e4.1
  have n5 : σ4.next ≤ σ5.next := e5.1
  have hdistP : ∀ r, sr = some r → σ.read r ≠ [] →
      sc ≠ some r ∧ tkc ≠ some r ∧ tkr ≠ some r ∧ tuc ≠ some r ∧ tur ≠ some r ∧
        t ≠ PyTarget.lst r := by
    intro r hsr2 hre
    rw [hsr2] at hdist
    simp only [srDistinctB, Bool.or_eq_true, Bool.and_eq_true, decide_eq_true_eq] at hdist
    rcases hdist with h9 | h9
    · exact absurd h9 hre
    · tauto
  have c1 := noneOrEmpty_ref_char σ0 sc
  simp only [hP1, Prod.mk.injEq] at c1
  have c3 := noneOrEmpty_ref_char σ2 tkc
  simp only [hP3, Prod.mk.injEq] at c3
  have c4 := noneOrEmpty_ref_char σ3 tkr
  simp only [hP4, Prod.mk.injEq] at c4
  have c5 := noneOrEmpty_ref_char σ4 tuc
  simp only [hP5, Prod.mk.injEq] at c5
  have c6 := noneOrEmpty_ref_char σ5 tur
  simp only [hP6, Prod.mk.injEq] at c6
  have Dsc : rsr ≠ rsc := by
    rcases c2 with ⟨-, hr2, hn2⟩ | ⟨r, hsr2, hne, -, hr2⟩
    · omega
    · have hrlt : r < σ.next := hvlt sr hsr r hsr2
      have hre : σ.read r ≠ [] := by rwa [hkept2 r hsr2] at hne
      have hd := hdistP r hsr2 hre
      rcases c1 with ⟨-, hr1, -⟩ | ⟨r2, hsc2, -, -, hr1⟩
      · omega
      · subst hr1
        subst hr2
        intro hcon
        exact hd.1 (by rw [hsc2, hcon])
  have Dtkc : rsr ≠ rtkc := by
    rcases c2 with ⟨-, hr2, hn2⟩ | ⟨r, hsr2, hne, -, hr2⟩
    · rcases c3 with ⟨-, hr3, -⟩ | ⟨r2, htkc2, -, -, hr3⟩
      · omega
      · have := hvlt tkc htkc r2 htkc2
        omega
    · have hrlt : r < σ.next := hvlt sr hsr r hsr2
      have hre : σ.read r ≠ [] := by rwa [hkept2 r hsr2] at hne
      have hd := hdistP r hsr2 hre
      rcases c3 with ⟨-, hr3, -⟩ | ⟨r2, htkc2, -, -, hr3⟩
      · omega
      · subst hr2
        subst hr3
        intro hcon
        exact hd.2.1 (by rw [htkc2, hcon])
  have Dtkr : rsr ≠ rtkr := by
    rcases c2 with ⟨-, hr2, hn2⟩ | ⟨r, hsr2, hne, -, hr2⟩
    · rcases c4 with ⟨-, hr4, -⟩ | ⟨r2, htkr2, -, -, hr4⟩
      · omega
      · have := hvlt tkr htkr r2 htkr2
        omega
    · have hrlt : r < σ.next := hvlt sr hsr r hsr2
      have hre : σ.read r ≠ [] := by rwa [hkept2 r hsr2] at hne
      have hd := hdistP r hsr2 hre
      rcases c4 with ⟨-, hr4, -⟩ | ⟨r2, htkr2, -, -, hr4⟩
      · omega
      · subst hr2
        subst hr4
        intro hcon
        exact hd.2.2.1 (by rw [htkr2, hcon])
  have Dtuc : rsr ≠ rtuc := by
    rcases c2 with ⟨-, hr2, hn2⟩ | ⟨r, hsr2, hne, -, hr2⟩
    · rcases c5 with ⟨-, hr5, -⟩ | ⟨r2, htuc2, -, -, hr5⟩
      · omega
      · have := hvlt tuc htuc r2 htuc2
        omega
    · have hrlt : r < σ.next := hvlt sr hsr r hsr2
      have hre : σ.read r ≠ [] := by rwa [hkept2 r hsr2] at hne
      have hd := hdistP r hsr2 hre
      rcases c5 with ⟨-, hr5, -⟩ | ⟨r2, htuc2, -, -, hr5⟩
      · omega
      · subst hr2
        subst hr5
        intro hcon
        exact hd.2.2.2.1 (by rw [htuc2, hcon])
  have Dtur : rsr ≠ rtur := by
    rcases c2 with ⟨-, hr2, hn2⟩ | ⟨r, hsr2, hne, -, hr2⟩
    · rcases c6 with ⟨-, hr6, -⟩ | ⟨r2, htur2, -, -, hr6⟩
      · omega
      · have := hvlt tur htur r2 htur2
        omega
    · have hrlt : r < σ.next := hvlt sr hsr r hsr2
      have hre : σ.read r ≠ [] := by rwa [hkept2 r hsr2] at hne
      have hd := hdistP r hsr2 hre
      rcases c6 with ⟨-, hr6, -⟩ | ⟨r2, htur2, -, -, hr6⟩
      · omega
      · subst hr2
        subst hr6
        intro hcon
        exact hd.2.2.2.2.1 (by rw [htur2, hcon])
  have Dt : ∀ rt, tg = PyTarget.lst rt → rt ≠ rsr := by
    intro rt htg hcon
    rcases normTarget_cases σ t with ⟨s, hts, -, hT⟩ | ⟨hsh, hT⟩ | ⟨rr, htr, hne9, hT⟩
    · simp only [hP0, Prod.mk.injEq] at hT
      rw [hT.2] at htg
      exact PyTarget.noConfusion htg
    · simp only [hP0, Prod.mk.injEq] at hT
      rw [hT.2] at htg
      injection htg with h9
      have hrt : rt = σ.next := by rw [← h9]; rfl
      have hσ0 : σ0.next = σ.next + 1 := by rw [hT.1]; rfl
      rcases c2 with ⟨-, hr2, -⟩ | ⟨r, hsr2, hne, -, hr2⟩
      · omega
      · have hrlt : r < σ.next := hvlt sr hsr r hsr2
        omega
    · simp only [hP0, Prod.mk.injEq] at hT
      rw [hT.2] at htg
      injection htg with h9
      have hrrlt : rr < σ.next := by
        rw [htr] at ht
        simp only [Store.tvalidB, decide_eq_true_eq] at ht
        exact ht
      rcases c2 with ⟨-, hr2, -⟩ | ⟨r, hsr2, hne, -, hr2⟩
      · omega
      · have hre : σ.read r ≠ [] := by rwa [hkept2 r hsr2] at hne
        have hd := hdistP r hsr2 hre
        apply hd.2.2.2.2.2
        rw [htr, h9, hcon, hr2]
  exact ⟨⟨Dsc, Dtkc, Dtkr, Dtuc, Dtur⟩, Dt⟩

/-! ### Encoder dictionary lemmas -/

theorem dictInsert_mem {β : Type} (d : List (String × β)) (k : String) (v : β)
    (kv : String × β) (h : kv ∈ dictInsert d k v) : kv ∈ d ∨ kv = (k, v) := by
  unfold dictInsert at h
  by_cases hc : d.any (fun kv => kv.1 = k) = true
  · rw [if_pos hc] at h
    obtain ⟨a, ha, hae⟩ := List.mem_map.mp h
    by_cases hk : a.1 = k
    · rw [if_pos hk] at hae
      exact Or.inr hae.symm
    · rw [if_neg hk] at hae
      exact Or.inl (hae ▸ ha)
  · rw [if_neg hc] at h
    rcases List.mem_append.mp h with h | h
    · exact Or.inl h
    · exact Or.inr (List.mem_singleton.mp h)

theorem encDictVal_ext {σ σ' : Store} (h : StoreExt σ σ') (d : EncDict)
    (hv : ∀ kv ∈ d, kv.2 < σ.enext) : encDictVal σ' d = encDictVal σ d := by
  unfold encDictVal
  apply List.map_congr_left
  intro kv hkv
  rw [h.2.2.2 kv.2 (hv kv hkv)]

theorem encDictVal_eq_of_eread {σ σ' : Store} (h : σ'.eread = σ.eread) (d : EncDict) :
    encDictVal σ' d = encDictVal σ d := by
  unfold encDictVal
  rw [h]

theorem encDictVal_dictInsert (σ : Store) (d : EncDict) (k : String) (r : Nat) :
    encDictVal σ (dictInsert d k r) = dictInsert (encDictVal σ d) k (σ.eread r) := by
  have hany : (d.map (fun kv => (kv.1, σ.eread kv.2))).any (fun kv => kv.1 = k) =
      d.any (fun kv => kv.1 = k) := by
    induction d with
    | nil => rfl
    | cons a l ih => simp only [List.map_cons, List.any_cons, ih]
  unfold dictInsert encDictVal
  by_cases hc : d.any (fun kv => kv.1 = k) = true
  · rw [if_pos hc, if_pos (by rw [hany]; exact hc)]
    rw [List.map_map, List.map_map]
    apply List.map_congr_left
    intro kv _
    by_cases hk : kv.1 = k
    · simp [Function.comp, hk]
    · simp [Function.comp, hk]
  · rw [if_neg hc, if_neg (by rw [hany]; exact hc)]
    simp

theorem getDefaultEncodersAux_spec (cs : List String) : ∀ (σ : Store) (acc : EncDict),
    (∀ kv ∈ acc, kv.2 < σ.enext) →
    StoreExt σ (getDefaultEncodersAux σ acc cs).1 ∧
    (getDefaultEncodersAux σ acc cs).1.heap = σ.heap ∧
    (getDefaultEncodersAux σ acc cs).1.next = σ.next ∧
    (∀ kv ∈ (getDefaultEncodersAux σ acc cs).2,
      kv.2 < (getDefaultEncodersAux σ acc cs).1.enext) ∧
    encDictVal (getDefaultEncodersAux σ acc cs).1 (getDefaultEncodersAux σ acc cs).2 =
      cs.foldl (fun d c => dictInsert d c ⟨true, []⟩) (encDictVal σ acc) := by
  induction cs with
  | nil =>
    intro σ acc hacc
    exact ⟨StoreExt.refl σ, rfl, rfl, hacc, rfl⟩
  | cons c cs ih =>
    intro σ acc hacc
    have hstep : StoreExt σ (σ.ealloc ⟨true, []⟩).1 := σ.ealloc_ext ⟨true, []⟩
    have hacc' : ∀ kv ∈ dictInsert acc c (σ.ealloc ⟨true, []⟩).2,
        kv.2 < (σ.ealloc ⟨true, []⟩).1.enext := by
      intro kv hkv
      rcases dictInsert_mem acc c _ kv hkv with h | h
      · exact lt_of_lt_of_le (hacc kv h) hstep.2.1
      · rw [h]
        show (σ.ealloc ⟨true, []⟩).2 < (σ.ealloc ⟨true, []⟩).1.enext
        simp [Store.ealloc]
    obtain ⟨ih1, ih2, ih3, ih4, ih5⟩ := ih (σ.ealloc ⟨true, []⟩).1
      (dictInsert acc c (σ.ealloc ⟨true, []⟩).2) hacc'
    simp only [getDefaultEncodersAux]
    refine ⟨hstep.trans ih1, ?_, ?_, ih4, ?_⟩
    · rw [ih2]
      rfl
    · rw [ih3]
      rfl
    · rw [ih5]
      simp only [List.foldl_cons]
      congr 1
      rw [encDictVal_dictInsert]
      congr 1
      · exact encDictVal_ext hstep acc hacc
      · exact (σ.eread_ealloc_self ⟨true, []⟩)

theorem chooseEncoders_spec (σ : Store) (f : TimeseriesFeatures) (ce : Option EncDict)
    (hce : ∀ d0, ce = some d0 → ∀ kv ∈ d0, kv.2 < σ.enext) :
    StoreExt σ (chooseEncoders σ f ce).1 ∧
    (chooseEncoders σ f ce).1.heap = σ.heap ∧
    (chooseEncoders σ f ce).1.next = σ.next ∧
    (∀ kv ∈ (chooseEncoders σ f ce).2, kv.2 < (chooseEncoders σ f ce).1.enext) ∧
    ((ce = none ∨ ce = some []) →
      encDictVal (chooseEncoders σ f ce).1 (chooseEncoders σ f ce).2 =
        defaultEncVal (f.categoricals σ)) ∧
    (∀ d0, ce = some d0 → d0 ≠ [] → chooseEncoders σ f ce = (σ, d0)) := by
  cases ce with
  | none =>
    obtain ⟨h1, h2, h3, h4, h5⟩ :=
      getDefaultEncodersAux_spec (f.categoricals σ) σ [] (by simp)
    exact ⟨h1, h2, h3, h4, fun _ => h5, fun d0 hd0 => Option.noConfusion hd0⟩
  | some d0 =>
    by_cases hd : d0 = []
    · subst hd
      obtain ⟨h1, h2, h3, h4, h5⟩ :=
        getDefaultEncodersAux_spec (f.categoricals σ) σ [] (by simp)
      have hch : chooseEncoders σ f (some []) = getDefaultEncoders σ f := by
        simp [chooseEncoders]
      rw [hch]
      refine ⟨h1, h2, h3, h4, fun _ => h5, fun d1 hd1 hne => ?_⟩
      injection hd1 with h9
      exact absurd h9.symm hne
    · have hch : chooseEncoders σ f (some d0) = (σ, d0) := by
        simp [chooseEncoders, hd]
      rw [hch]
      refine ⟨StoreExt.refl σ, rfl, rfl, hce d0 rfl, fun hor => ?_, fun d1 hd1 hne => ?_⟩
      · rcases hor with h9 | h9
        · exact Option.noConfusion h9
        · injection h9 with h9
          exact absurd h9 hd
      · injection hd1 with h9
        rw [h9]

theorem makeSpec (σ : Store) (data : DataFrame) (time_idx : String) (t : PyTarget)
    (gid : Nat) (mel : Int) (mnel mnpl : Option Int) (mpl : Int)
    (sc sr tkc tkr tuc tur : Option Nat) (rl : RandomizeLength) (add : Bool)
    (ce : Option EncDict) (pm : Bool) (σ' : Store) (d : TimeseriesDataset)
    (heq : TimeseriesDataset.make σ data time_idx t gid mel mnel mnpl mpl sc sr tkc
      tkr tuc tur rl add ce pm = (σ', d))
    (hsc : σ.ovalid sc = true) (hsr : σ.ovalid sr = true) (htkc : σ.ovalid tkc = true)
    (htkr : σ.ovalid tkr = true) (htuc : σ.ovalid tuc = true) (htur : σ.ovalid tur = true)
    (ht : σ.tvalidB t = true)
    (hdist : srDistinctB σ t sc sr tkc tkr tuc tur = true)
    (hce : ∀ d0, ce = some d0 → ∀ kv ∈ d0, kv.2 < σ.enext) :
    (σ.next ≤ σ'.next ∧ σ.enext ≤ σ'.enext) ∧
    (∀ e, e < σ.enext → σ'.eread e = σ.eread e) ∧
    σ'.read d.features.static_reals = srAfterVal σ add sr tkr tur ∧
    d.features.reals σ' = realsAfterVal σ add sr tkr tur ∧
    d.features.categoricals σ' = catsVal σ sc tkc tuc ∧
    d.features.target_names σ' = targetNamesVal σ t ∧
    d.pf.scalers =
      getDefaultScalersList (realsAfterVal σ add sr tkr tur) (targetNamesVal σ t) ∧
    ((ce = none ∨ ce = some []) →
      encDictVal σ' d.categorical_encoders = defaultEncVal (catsVal σ sc tkc tuc)) ∧
    (∀ d0, ce = some d0 → d0 ≠ [] → d.categorical_encoders = d0 ∧
      encDictVal σ' d.categorical_encoders = encDictVal σ d0) ∧
    (∀ kv ∈ d.categorical_encoders, kv.2 < σ'.enext) ∧
    (∀ r, r < σ.next → (∀ rr, sr = some rr → σ.read rr ≠ [] → r ≠ rr) →
      σ'.read r = σ.read r) ∧
    (appendCondB σ add sr tkr tur = false → ∀ r, r < σ.next → σ'.read r = σ.read r) ∧
    (∀ rr, sr = some rr → σ.read rr ≠ [] → d.features.static_reals = rr) := by
  rcases hF : TimeseriesFeatures.make σ t sc sr tkc tkr tuc tur with ⟨σf, f⟩
  rcases hE : chooseEncoders σf f ce with ⟨σe, enc⟩
  have hmk : TimeseriesDataset.make σ data time_idx t gid mel mnel mnpl mpl sc sr tkc
      tkr tuc tur rl add ce pm =
      (appendEncoderLength σe f add,
       ⟨time_idx, t, gid, mel, mnel, mnpl, mpl, sc, sr, tkc, tkr, tuc, tur, rl, add, pm,
        f, enc,
        ⟨data, time_idx, (appendEncoderLength σe f add).read gid, mpl, mel, mnel, mnpl,
         rl,
         getDefaultScalersList (f.reals (appendEncoderLength σe f add))
           (f.target_names (appendEncoderLength σe f add)),
         enc, pm, f.asDict (appendEncoderLength σe f add)⟩⟩) := by
    simp only [TimeseriesDataset.make, hF, hE]
  rw [hmk] at heq
  injection heq with h1 h2
  subst h1
  subst h2
  obtain ⟨FS1, FSsc, FSsr, FStkc, FStkr, FStuc, FStur, FSt, CK2, CK⟩ :=
    featuresMake_spec σ t sc sr tkc tkr tuc tur σf f hF hsc hsr htkc htkr htuc htur ht
  obtain ⟨⟨D1, D2, D3, D4, D5⟩, Dt⟩ :=
    featuresMake_distinct σ t sc sr tkc tkr tuc tur σf f hF hsc hsr htkc htkr htuc htur
      ht hdist
  have hcef : ∀ d0, ce = some d0 → ∀ kv ∈ d0, kv.2 < σf.enext := by
    intro d0 h kv hkv
    exact lt_of_lt_of_le (hce d0 h kv hkv) FS1.2.1
  obtain ⟨CE1, CEheap, CEnext, CEvalid, CEdef, CEkept⟩ := chooseEncoders_spec σf f ce hcef
  simp only [hE] at CE1 CEheap CEnext CEvalid CEdef CEkept
  have hre : σe.read = σf.read := by
    unfold Store.read
    rw [CEheap]
  have hrealsf : f.reals σf = realsBeforeVal σ sr tkr tur := by
    unfold TimeseriesFeatures.reals realsBeforeVal
    rw [FSsr, FStkr, FStur]
  have hrealse : f.reals σe = realsBeforeVal σ sr tkr tur := by
    unfold TimeseriesFeatures.reals
    rw [hre]
    exact hrealsf
  have hcondiff : (add = true ∧ "encoder_length" ∉ f.reals σe) ↔
      appendCondB σ add sr tkr tur = true := by
    unfold appendCondB
    rw [hrealse]
    simp [Bool.and_eq_true, decide_eq_true_eq]
  have HH : ∀ r, r ≠ f.static_reals → (appendEncoderLength σe f add).read r = σf.read r := by
    intro r hr
    unfold appendEncoderLength
    by_cases hcond : add = true ∧ "encoder_length" ∉ f.reals σe
    · rw [if_pos hcond, Store.read_write_ne σe f.static_reals r _ hr]
      exact congrFun hre r
    · rw [if_neg hcond]
      exact congrFun hre r
  have HSR : (appendEncoderLength σe f add).read f.static_reals =
      srAfterVal σ add sr tkr tur := by
    unfold appendEncoderLength srAfterVal
    by_cases hcond : add = true ∧ "encoder_length" ∉ f.reals σe
    · rw [if_pos hcond, Store.read_write_self, if_pos (hcondiff.mp hcond),
        congrFun hre f.static_reals, FSsr]
    · have hb : ¬ (appendCondB σ add sr tkr tur = true) := fun h => hcond (hcondiff.mpr h)
      rw [if_neg hcond, if_neg hb, List.append_nil, congrFun hre f.static_reals, FSsr]
  have Hnext : (appendEncoderLength σe f add).next = σf.next := by
    unfold appendEncoderLength
    by_cases hcond : add = true ∧ "encoder_length" ∉ f.reals σe
    · rw [if_pos hcond, Store.write_next, CEnext]
    · rw [if_neg hcond, CEnext]
  have Heheap : (appendEncoderLength σe f add).eread = σe.eread := by
    unfold appendEncoderLength
    by_cases hcond : add = true ∧ "encoder_length" ∉ f.reals σe
    · rw [if_pos hcond]
      rfl
    · rw [if_neg hcond]
  have Henext : (appendEncoderLength σe f add).enext = σe.enext := by
    unfold appendEncoderLength
    by_cases hcond : add = true ∧ "encoder_length" ∉ f.reals σe
    · rw [if_pos hcond]
      rfl
    · rw [if_neg hcond]
  have Hreals : f.reals (appendEncoderLength σe f add) = realsAfterVal σ add sr tkr tur := by
    unfold TimeseriesFeatures.reals realsAfterVal
    rw [HSR, HH f.time_varying_known_reals (Ne.symm D3),
      HH f.time_varying_unknown_reals (Ne.symm D5), FStkr, FStur]
  have Hcats : f.categoricals (appendEncoderLength σe f add) = catsVal σ sc tkc tuc := by
    unfold TimeseriesFeatures.categoricals catsVal
    rw [HH f.static_categoricals (Ne.symm D1),
      HH f.time_varying_known_categoricals (Ne.symm D2),
      HH f.time_varying_unknown_categoricals (Ne.symm D4), FSsc, FStkc, FStuc]
  have Htn : f.target_names (appendEncoderLength σe f add) = targetNamesVal σ t := by
    rw [← FSt]
    unfold TimeseriesFeatures.target_names
    cases htg : f.target with
    | str s => rfl
    | lst r => exact HH r (Dt r htg)
  refine ⟨⟨?_, ?_⟩, ?_, HSR, Hreals, Hcats, Htn, ?_, ?_, ?_, ?_, ?_, ?_, CK2⟩
  · rw [Hnext]
    exact FS1.1
  · rw [Henext]
    exact le_trans FS1.2.1 CE1.2.1
  · intro e he
    rw [congrFun Heheap e, CE1.2.2.2 e (lt_of_lt_of_le he FS1.2.1), FS1.2.2.2 e he]
  · rw [Hreals, Htn]
  · intro hor
    have hcatsf : f.categoricals σf = catsVal σ sc tkc tuc := by
      unfold TimeseriesFeatures.categoricals catsVal
      rw [FSsc, FStkc, FStuc]
    rw [encDictVal_eq_of_eread Heheap enc, CEdef hor, hcatsf]
  · intro d0 hd0 hne
    have hk := CEkept d0 hd0 hne
    simp only [Prod.mk.injEq] at hk
    constructor
    · exact hk.2
    · rw [encDictVal_eq_of_eread Heheap enc, hk.2, hk.1]
      exact encDictVal_ext FS1 d0 (hce d0 hd0)
  · intro kv hkv
    rw [Henext]
    exact CEvalid kv hkv
  · intro r hr hex
    have hne : r ≠ f.static_reals := by
      rcases CK with hfr | ⟨rr, hsr', hne', heqr⟩
      · omega
      · rw [heqr]
        exact hex rr hsr' hne'
    rw [HH r hne]
    exact FS1.2.2.1 r hr
  · intro hfalse r hr
    have hcond : ¬ (add = true ∧ "encoder_length" ∉ f.reals σe) := by
      intro h
      rw [hcondiff.mp h] at hfalse
      exact Bool.noConfusion hfalse
    unfold appendEncoderLength
    rw [if_neg hcond, congrFun hre r]
    exact FS1.2.2.1 r hr

/-! ### Deep-copy lemmas -/

theorem deepcopyOptRef_spec (σ : Store) (o : Option Nat) :
    StoreExt σ (deepcopyOptRef σ o).1 ∧
    (deepcopyOptRef σ o).1.ovalid (deepcopyOptRef σ o).2 = true ∧
    normVal (deepcopyOptRef σ o).1 (deepcopyOptRef σ o).2 = normVal σ o ∧
    (∀ r2, (deepcopyOptRef σ o).2 = some r2 → σ.next ≤ r2) ∧
    ((deepcopyOptRef σ o).2 = none ↔ o = none) ∧
    (deepcopyOptRef σ o).1.eread = σ.eread ∧
    (deepcopyOptRef σ o).1.enext = σ.enext := by
  cases o with
  | none =>
    exact ⟨StoreExt.refl σ, rfl, rfl, fun r2 h => Option.noConfusion h,
      ⟨fun _ => rfl, fun _ => rfl⟩, rfl, rfl⟩
  | some r =>
    refine ⟨σ.alloc_ext (σ.read r), ?_, ?_, ?_,
      ⟨fun h => Option.noConfusion h, fun h => Option.noConfusion h⟩, rfl, rfl⟩
    · show (σ.alloc (σ.read r)).1.ovalid (some (σ.alloc (σ.read r)).2) = true
      simp [Store.ovalid, Store.alloc]
    · show (σ.alloc (σ.read r)).1.read (σ.alloc (σ.read r)).2 = normVal σ (some r)
      exact σ.read_alloc_self (σ.read r)
    · intro r2 h
      injection h with h
      rw [← h]
      exact le_refl σ.next

theorem deepcopyTarget_spec (σ : Store) (t : PyTarget) :
    StoreExt σ (deepcopyTarget σ t).1 ∧
    (deepcopyTarget σ t).1.tvalidB (deepcopyTarget σ t).2 = true ∧
    targetNamesVal (deepcopyTarget σ t).1 (deepcopyTarget σ t).2 = targetNamesVal σ t ∧
    (∀ r2, (deepcopyTarget σ t).2 = PyTarget.lst r2 → σ.next ≤ r2) ∧
    (deepcopyTarget σ t).1.eread = σ.eread ∧
    (deepcopyTarget σ t).1.enext = σ.enext := by
  cases t with
  | str s =>
    exact ⟨StoreExt.refl σ, rfl, rfl, fun r2 h => PyTarget.noConfusion h, rfl, rfl⟩
  | lst r =>
    refine ⟨σ.alloc_ext (σ.read r), ?_, ?_, ?_, rfl, rfl⟩
    · show (σ.alloc (σ.read r)).1.tvalidB (.lst (σ.alloc (σ.read r)).2) = true
      simp [Store.tvalidB, Store.alloc]
    · show (σ.alloc (σ.read r)).1.read (σ.alloc (σ.read r)).2 = targetNamesVal σ (.lst r)
      exact σ.read_alloc_self (σ.read r)
    · intro r2 h
      injection h with h
      rw [← h]
      exact le_refl σ.next

theorem deepcopyEncDict_spec (d : EncDict) : ∀ σ : Store,
    (∀ kv ∈ d, kv.2 < σ.enext) →
    StoreExt σ (deepcopyEncDict σ d).1 ∧
    (deepcopyEncDict σ d).1.heap = σ.heap ∧
    (deepcopyEncDict σ d).1.next = σ.next ∧
    (∀ kv ∈ (deepcopyEncDict σ d).2, kv.2 < (deepcopyEncDict σ d).1.enext) ∧
    encDictVal (deepcopyEncDict σ d).1 (deepcopyEncDict σ d).2 = encDictVal σ d ∧
    ((deepcopyEncDict σ d).2 = [] ↔ d = []) := by
  induction d with
  | nil =>
    intro σ _
    exact ⟨StoreExt.refl σ, rfl, rfl, by simp [deepcopyEncDict], rfl, by simp [deepcopyEncDict]⟩
  | cons kv rest ih =>
    intro σ hv
    have hstep : StoreExt σ (σ.ealloc (σ.eread kv.2)).1 := σ.ealloc_ext (σ.eread kv.2)
    have hrest : ∀ kv2 ∈ rest, kv2.2 < (σ.ealloc (σ.eread kv.2)).1.enext := by
      intro kv2 hkv2
      exact lt_of_lt_of_le (hv kv2 (List.mem_cons_of_mem kv hkv2)) hstep.2.1
    obtain ⟨ih1, ih2, ih3, ih4, ih5, ih6⟩ := ih (σ.ealloc (σ.eread kv.2)).1 hrest
    simp only [deepcopyEncDict]
    refine ⟨hstep.trans ih1, by rw [ih2]; rfl, by rw [ih3]; rfl, ?_, ?_, by simp⟩
    · intro kv2 hkv2
      rcases List.mem_cons.mp hkv2 with h | h
      · rw [h]
        show (σ.ealloc (σ.eread kv.2)).2 < _
        calc (σ.ealloc (σ.eread kv.2)).2 < (σ.ealloc (σ.eread kv.2)).1.enext := by
              simp [Store.ealloc]
          _ ≤ _ := ih1.2.1
      · exact ih4 kv2 h
    · show encDictVal _ ((kv.1, (σ.ealloc (σ.eread kv.2)).2) :: _) = _
      unfold encDictVal
      simp only [List.map_cons]
      have h1 : (deepcopyEncDict (σ.ealloc (σ.eread kv.2)).1 rest).1.eread
          (σ.ealloc (σ.eread kv.2)).2 = σ.eread kv.2 := by
        rw [ih1.2.2.2 _ (by simp [Store.ealloc]), σ.eread_ealloc_self]
      rw [h1]
      have h2 : encDictVal (deepcopyEncDict (σ.ealloc (σ.eread kv.2)).1 rest).1
          (deepcopyEncDict (σ.ealloc (σ.eread kv.2)).1 rest).2 =
          encDictVal (σ.ealloc (σ.eread kv.2)).1 rest := ih5
      have h3 : encDictVal (σ.ealloc (σ.eread kv.2)).1 rest = encDictVal σ rest :=
        encDictVal_ext hstep rest (fun kv2 hkv2 =>
          hv kv2 (List.mem_cons_of_mem kv hkv2))
      show _ :: encDictVal _ _ = _ :: encDictVal σ rest
      rw [h2, h3]

/-! ### Further helpers for the round-trip claims -/

theorem Store.ovalid_of_le {σ σ' : Store} (h : σ.next ≤ σ'.next) (o : Option Nat)
    (ho : σ.ovalid o = true) : σ'.ovalid o = true := by
  cases o with
  | none => rfl
  | some r =>
    simp only [Store.ovalid, decide_eq_true_eq] at ho ⊢
    omega

theorem Store.tvalidB_of_le {σ σ' : Store} (h : σ.next ≤ σ'.next) (t : PyTarget)
    (ht : σ.tvalidB t = true) : σ'.tvalidB t = true := by
  cases t with
  | str s => rfl
  | lst r =>
    simp only [Store.tvalidB, decide_eq_true_eq] at ht ⊢
    omega

theorem Store.tvalidB_mono {σ σ' : Store} (h : StoreExt σ σ') (t : PyTarget)
    (ht : σ.tvalidB t = true) : σ'.tvalidB t = true :=
  Store.tvalidB_of_le h.1 t ht

theorem targetNamesVal_ext {σ σ' : Store} (h : StoreExt σ σ') (t : PyTarget)
    (ht : σ.tvalidB t = true) : targetNamesVal σ' t = targetNamesVal σ t := by
  cases t with
  | str s => rfl
  | lst r =>
    simp only [Store.tvalidB, decide_eq_true_eq] at ht
    simpa [targetNamesVal] using h.2.2.1 r ht

theorem srDistinctB_prop (σ : Store) (t : PyTarget) (sc sr tkc tkr tuc tur : Option Nat)
    (h : srDistinctB σ t sc sr tkc tkr tuc tur = true) :
    ∀ rr, sr = some rr → σ.read rr ≠ [] →
      sc ≠ some rr ∧ tkc ≠ some rr ∧ tkr ≠ some rr ∧ tuc ≠ some rr ∧ tur ≠ some rr ∧
        t ≠ PyTarget.lst rr := by
  intro rr hsr hre
  rw [hsr] at h
  simp only [srDistinctB, Bool.or_eq_true, Bool.and_eq_true, decide_eq_true_eq] at h
  rcases h with h9 | h9
  · exact absurd h9 hre
  · tauto

/-- Value-level description of the `static_reals` value after construction,
as a function of the argument values alone. -/
def srAfterPure (add : Bool) (srv tkrv turv : List String) : List String :=
  srv ++
    (if add && decide ("encoder_length" ∉ (srv ++ tkrv ++ turv)) then ["encoder_length"]
     else [])

theorem srAfterVal_eq_pure (σ : Store) (add : Bool) (sr tkr tur : Option Nat) :
    srAfterVal σ add sr tkr tur =
      srAfterPure add (normVal σ sr) (normVal σ tkr) (normVal σ tur) := rfl

theorem srAfterPure_pos (add : Bool) (srv tkrv turv : List String) (h : add = true)
    (hm : "encoder_length" ∉ (srv ++ tkrv ++ turv)) :
    srAfterPure add srv tkrv turv = srv ++ ["encoder_length"] := by
  unfold srAfterPure
  split
  next => rfl
  next hc =>
    exfalso
    apply hc
    rw [h]
    simp only [Bool.true_and, decide_eq_true_eq]
    exact hm

theorem srAfterPure_neg (add : Bool) (srv tkrv turv : List String)
    (h : add = false ∨ "encoder_length" ∈ (srv ++ tkrv ++ turv)) :
    srAfterPure add srv tkrv turv = srv := by
  unfold srAfterPure
  split
  next hc =>
    exfalso
    simp only [Bool.and_eq_true, decide_eq_true_eq] at hc
    rcases h with h | h
    · rw [h] at hc
      exact Bool.noConfusion hc.1
    · exact hc.2 h
  next => exact List.append_nil srv

theorem srAfterPure_roundtrip (add : Bool) (srv tkrv turv v : List String)
    (hv : v = srAfterPure add srv tkrv turv ∨ (v = srv ∧ srv = [])) :
    srAfterPure add v tkrv turv = srAfterPure add srv tkrv turv := by
  rcases hv with hv | ⟨hv, -⟩
  · subst hv
    by_cases hpos : add = true ∧ "encoder_length" ∉ (srv ++ tkrv ++ turv)
    · rw [srAfterPure_pos add srv tkrv turv hpos.1 hpos.2,
        srAfterPure_neg add (srv ++ ["encoder_length"]) tkrv turv (Or.inr (by simp))]
    · have hneg : add = false ∨ "encoder_length" ∈ (srv ++ tkrv ++ turv) := by
        by_cases ha : add = true
        · right
          by_contra hm
          exact hpos ⟨ha, hm⟩
        · left
          exact Bool.eq_false_iff.mpr ha
      have h9 := srAfterPure_neg add srv tkrv turv hneg
      rw [h9, h9]
  · subst hv
    rfl

theorem srAfterPure_count (add : Bool) (srv tkrv turv : List String)
    (h : srv.count "encoder_length" ≤ 1) :
    (srAfterPure add srv tkrv turv).count "encoder_length" ≤ 1 := by
  unfold srAfterPure
  split
  next hc =>
    simp only [Bool.and_eq_true, decide_eq_true_eq] at hc
    have hnot : "encoder_length" ∉ srv := fun hm => hc.2 (by simp [hm])
    rw [List.count_append, List.count_eq_zero.mpr hnot]
    simp
  next hc =>
    rw [List.append_nil]
    exact h

/-! ### Scaler dictionary key lemmas -/

theorem dictInsert_key_iff {β : Type} (d : List (String × β)) (k : String) (v : β)
    (k2 : String) :
    (∃ v2, (k2, v2) ∈ dictInsert d k v) ↔ (∃ v2, (k2, v2) ∈ d) ∨ k2 = k := by
  constructor
  · rintro ⟨v2, hv2⟩
    rcases dictInsert_mem d k v (k2, v2) hv2 with h | h
    · exact Or.inl ⟨v2, h⟩
    · exact Or.inr (congrArg Prod.fst h)
  · intro h
    unfold dictInsert
    by_cases hc : d.any (fun kv => kv.1 = k) = true
    · rw [if_pos hc]
      rcases h with ⟨v2, hv2⟩ | h
      · by_cases hk : k2 = k
        · subst hk
          exact ⟨v, List.mem_map.mpr ⟨(k2, v2), hv2, by simp⟩⟩
        · exact ⟨v2, List.mem_map.mpr ⟨(k2, v2), hv2, by simp [hk]⟩⟩
      · subst h
        obtain ⟨a, ha, hak⟩ := List.any_eq_true.mp hc
        simp only [decide_eq_true_eq] at hak
        exact ⟨v, List.mem_map.mpr ⟨a, ha, by simp [hak]⟩⟩
    · rw [if_neg hc]
      rcases h with ⟨v2, hv2⟩ | h
      · exact ⟨v2, List.mem_append.mpr (Or.inl hv2)⟩
      · subst h
        exact ⟨v, List.mem_append.mpr (Or.inr (List.mem_singleton.mpr rfl))⟩

theorem foldl_dictInsert_key_iff {β : Type} (l : List String) (v : β) :
    ∀ (acc : List (String × β)) (k : String),
    (∃ v2, (k, v2) ∈ l.foldl (fun d r => dictInsert d r v) acc) ↔
      (∃ v2, (k, v2) ∈ acc) ∨ k ∈ l := by
  induction l with
  | nil =>
    intro acc k
    simp
  | cons c cs ih =>
    intro acc k
    simp only [List.foldl_cons]
    rw [ih (dictInsert acc c v) k, dictInsert_key_iff]
    constructor
    · rintro ((h | h) | h)
      · exact Or.inl h
      · exact Or.inr (by simp [h])
      · exact Or.inr (List.mem_cons_of_mem c h)
    · rintro (h | h)
      · exact Or.inl (Or.inl h)
      · rcases List.mem_cons.mp h with h | h
        · exact Or.inl (Or.inr h)
        · exact Or.inr h

theorem getDefaultScalersList_key_iff (reals targets : List String) (k : String) :
    (∃ v, (k, v) ∈ getDefaultScalersList reals targets) ↔ (k ∈ reals ∧ k ∉ targets) := by
  unfold getDefaultScalersList
  rw [foldl_dictInsert_key_iff]
  simp [List.mem_filter]

theorem identityTransformer_unique (x : IdentityTransformer) : x = IdentityTransformer.mk := by
  cases x
  rfl

theorem make_attrs (σ : Store) (data : DataFrame) (time_idx : String) (t : PyTarget)
    (gid : Nat) (mel : Int) (mnel mnpl : Option Int) (mpl : Int)
    (sc sr tkc tkr tuc tur : Option Nat) (rl : RandomizeLength) (add : Bool)
    (ce : Option EncDict) (pm : Bool) (σ' : Store) (d : TimeseriesDataset)
    (heq : TimeseriesDataset.make σ data time_idx t gid mel mnel mnpl mpl sc sr tkc
      tkr tuc tur rl add ce pm = (σ', d)) :
    d.get_parameters =
      ⟨time_idx, t, gid, mel, mnel, mnpl, mpl, sc, sr, tkc, tkr, tuc, tur, rl, add,
        d.categorical_encoders, pm⟩ ∧
    d.add_encoder_length = add ∧ d.static_reals = sr ∧ d.target = t := by
  have hd : (TimeseriesDataset.make σ data time_idx t gid mel mnel mnpl mpl sc sr tkc
      tkr tuc tur rl add ce pm).2 = d := by rw [heq]
  subst hd
  exact ⟨rfl, rfl, rfl, rfl⟩

theorem paramsDeepcopy_spec (σ : Store) (p : Parameters) (σc : Store) (pc : Parameters)
    (heq : p.deepcopy σ = (σc, pc))
    (hsc : σ.ovalid p.static_categoricals = true)
    (hsr : σ.ovalid p.static_reals = true)
    (htkc : σ.ovalid p.time_varying_known_categoricals = true)
    (htkr : σ.ovalid p.time_varying_known_reals = true)
    (htuc : σ.ovalid p.time_varying_unknown_categoricals = true)
    (htur : σ.ovalid p.time_varying_unknown_reals = true)
    (ht : σ.tvalidB p.target = true)
    (hce : ∀ kv ∈ p.categorical_encoders, kv.2 < σ.enext) :
    StoreExt σ σc ∧
    (pc.time_idx = p.time_idx ∧ pc.add_encoder_length = p.add_encoder_length) ∧
    (σc.ovalid pc.static_categoricals = true ∧ σc.ovalid pc.static_reals = true ∧
      σc.ovalid pc.time_varying_known_categoricals = true ∧
      σc.ovalid pc.time_varying_known_reals = true ∧
      σc.ovalid pc.time_varying_unknown_categoricals = true ∧
      σc.ovalid pc.time_varying_unknown_reals = true ∧ σc.tvalidB pc.target = true) ∧
    srDistinctB σc pc.target pc.static_categoricals pc.static_reals
      pc.time_varying_known_categoricals pc.time_varying_known_reals
      pc.time_varying_unknown_categoricals pc.time_varying_unknown_reals = true ∧
    (normVal σc pc.static_categoricals = normVal σ p.static_categoricals ∧
      normVal σc pc.static_reals = normVal σ p.static_reals ∧
      normVal σc pc.time_varying_known_categoricals =
        normVal σ p.time_varying_known_categoricals ∧
      normVal σc pc.time_varying_known_reals = normVal σ p.time_varying_known_reals ∧
      normVal σc pc.time_varying_unknown_categoricals =
        normVal σ p.time_varying_unknown_categoricals ∧
      normVal σc pc.time_varying_unknown_reals = normVal σ p.time_varying_unknown_reals ∧
      targetNamesVal σc pc.target = targetNamesVal σ p.target) ∧
    (∀ kv ∈ pc.categorical_encoders, kv.2 < σc.enext) ∧
    encDictVal σc pc.categorical_encoders = encDictVal σ p.categorical_encoders ∧
    (pc.categorical_encoders = [] ↔ p.categorical_encoders = []) := by
  rcases hQ1 : σ.alloc (σ.read p.group_ids) with ⟨σ1, g2⟩
  rcases hQ2 : deepcopyTarget σ1 p.target with ⟨σ2, t2⟩
  rcases hQ3 : deepcopyOptRef σ2 p.static_categoricals with ⟨σ3, sc2⟩
  rcases hQ4 : deepcopyOptRef σ3 p.static_reals with ⟨σ4, sr2⟩
  rcases hQ5 : deepcopyOptRef σ4 p.time_varying_known_categoricals with ⟨σ5, kc2⟩
  rcases hQ6 : deepcopyOptRef σ5 p.time_varying_known_reals with ⟨σ6, kr2⟩
  rcases hQ7 : deepcopyOptRef σ6 p.time_varying_unknown_categoricals with ⟨σ7, uc2⟩
  rcases hQ8 : deepcopyOptRef σ7 p.time_varying_unknown_reals with ⟨σ8, ur2⟩
  have hce8 : ∀ kv ∈ p.categorical_encoders, kv.2 < σ8.enext := by
    have hen : σ8.enext = σ.enext := by
      have q2 := (deepcopyTarget_spec σ1 p.target).2.2.2.2.2
      have q3 := (deepcopyOptRef_spec σ2 p.static_categoricals).2.2.2.2.2.2
      have q4 := (deepcopyOptRef_spec σ3 p.static_reals).2.2.2.2.2.2
      have q5 := (deepcopyOptRef_spec σ4 p.time_varying_known_categoricals).2.2.2.2.2.2
      have q6 := (deepcopyOptRef_spec σ5 p.time_varying_known_reals).2.2.2.2.2.2
      have q7 := (deepcopyOptRef_spec σ6 p.time_varying_unknown_categoricals).2.2.2.2.2.2
      have q8 := (deepcopyOptRef_spec σ7 p.time_varying_unknown_reals).2.2.2.2.2.2
      simp only [hQ2] at q2
      simp only [hQ3] at q3
      simp only [hQ4] at q4
      simp only [hQ5] at q5
      simp only [hQ6] at q6
      simp only [hQ7] at q7
      simp only [hQ8] at q8
      have q1 : σ1.enext = σ.enext := by
        have : (σ.alloc (σ.read p.group_ids)).1.enext = σ.enext := rfl
        rwa [hQ1] at this
      rw [q8, q7, q6, q5, q4, q3, q2, q1]
    rw [hen]
    exact hce
  rcases hQ9 : deepcopyEncDict σ8 p.categorical_encoders with ⟨σ9, ce2⟩
  have hmk : p.deepcopy σ =
      (σ9, ⟨p.time_idx, t2, g2, p.max_encoder_length, p.min_encoder_length,
        p.min_prediction_length, p.max_prediction_length, sc2, sr2, kc2, kr2, uc2, ur2,
        p.randomize_length, p.add_encoder_length, ce2, p.predict_mode⟩) := by
    simp only [Parameters.deepcopy, hQ1, hQ2, hQ3, hQ4, hQ5, hQ6, hQ7, hQ8, hQ9]
  rw [hmk] at heq
  injection heq with h1 h2
  subst h1
  subst h2
  have e1 : StoreExt σ σ1 := by
    have := σ.alloc_ext (σ.read p.group_ids)
    rwa [hQ1] at this
  obtain ⟨e2, T2v, T2n, T2f, -, -⟩ := by
    have h := deepcopyTarget_spec σ1 p.target
    rw [hQ2] at h
    exact h
  obtain ⟨e3, O3v, O3n, O3f, -, -, -⟩ := by
    have h := deepcopyOptRef_spec σ2 p.static_categoricals
    rw [hQ3] at h
    exact h
  obtain ⟨e4, O4v, O4n, O4f, -, -, -⟩ := by
    have h := deepcopyOptRef_spec σ3 p.static_reals
    rw [hQ4] at h
    exact h
  obtain ⟨e5, O5v, O5n, O5f, -, -, -⟩ := by
    have h := deepcopyOptRef_spec σ4 p.time_varying_known_categoricals
    rw [hQ5] at h
    exact h
  obtain ⟨e6, O6v, O6n, O6f, -, -, -⟩ := by
    have h := deepcopyOptRef_spec σ5 p.time_varying_known_reals
    rw [hQ6] at h
    exact h
  obtain ⟨e7, O7v, O7n, O7f, -, -, -⟩ := by
    have h := deepcopyOptRef_spec σ6 p.time_varying_unknown_categoricals
    rw [hQ7] at h
    exact h
  obtain ⟨e8, O8v, O8n, O8f, -, -, -⟩ := by
    have h := deepcopyOptRef_spec σ7 p.time_varying_unknown_reals
    rw [hQ8] at h
    exact h
  obtain ⟨e9, E9h, E9n, E9v, E9val, E9iff⟩ := by
    have h := deepcopyEncDict_spec p.categorical_encoders σ8 hce8
    rw [hQ9] at h
    exact h
  have E2 : StoreExt σ σ2 := e1.trans e2
  have E3 : StoreExt σ σ3 := E2.trans e3
  have E4 : StoreExt σ σ4 := E3.trans e4
  have E5 : StoreExt σ σ5 := E4.trans e5
  have E6 : StoreExt σ σ6 := E5.trans e6
  have E7 : StoreExt σ σ7 := E6.trans e7
  have E8 : StoreExt σ σ8 := E7.trans e8
  have EA : StoreExt σ σ9 := E8.trans e9
  have S8 : StoreExt σ8 σ9 := e9
  have S7 : StoreExt σ7 σ9 := e8.trans S8
  have S6 : StoreExt σ6 σ9 := e7.trans S7
  have S5 : StoreExt σ5 σ9 := e6.trans S6
  have S4 : StoreExt σ4 σ9 := e5.trans S5
  have S3 : StoreExt σ3 σ9 := e4.trans S4
  have S2 : StoreExt σ2 σ9 := e3.trans S3
  refine ⟨EA, ⟨rfl, rfl⟩, ?_, ?_, ?_, ?_, ?_, ?_⟩
  · exact ⟨Store.ovalid_mono S3 sc2 O3v, Store.ovalid_mono S4 sr2 O4v,
      Store.ovalid_mono S5 kc2 O5v, Store.ovalid_mono S6 kr2 O6v,
      Store.ovalid_mono S7 uc2 O7v, Store.ovalid_mono S8 ur2 O8v,
      Store.tvalidB_mono S2 t2 T2v⟩
  · show srDistinctB σ9 t2 sc2 sr2 kc2 kr2 uc2 ur2 = true
    cases hsr2 : sr2 with
    | none => rfl
    | some rr =>
      have hfr : σ3.next ≤ rr := O4f rr hsr2
      have hub : rr < σ4.next := by
        rw [hsr2] at O4v
        simp only [Store.ovalid, decide_eq_true_eq] at O4v
        exact O4v
      have n12 : σ1.next ≤ σ2.next := e2.1
      have n23 : σ2.next ≤ σ3.next := e3.1
      have n45 : σ4.next ≤ σ5.next := e5.1
      have n56 : σ5.next ≤ σ6.next := e6.1
      have n67 : σ6.next ≤ σ7.next := e7.1
      have n78 : σ7.next ≤ σ8.next := e8.1
      have hd1 : sc2 ≠ some rr := by
        intro h
        have hlow := O3f rr h
        have hup : rr < σ3.next := by
          rw [h] at O3v
          simp only [Store.ovalid, decide_eq_true_eq] at O3v
          exact O3v
        omega
      have hd2 : kc2 ≠ some rr := by
        intro h
        have hlow := O5f rr h
        omega
      have hd3 : kr2 ≠ some rr := by
        intro h
        have hlow := O6f rr h
        omega
      have hd4 : uc2 ≠ some rr := by
        intro h
        have hlow := O7f rr h
        omega
      have hd5 : ur2 ≠ some rr := by
        intro h
        have hlow := O8f rr h
        omega
      have hd6 : t2 ≠ PyTarget.lst rr := by
        intro h
        have hlow := T2f rr h
        have hup : rr < σ2.next := by
          rw [h] at T2v
          simp only [Store.tvalidB, decide_eq_true_eq] at T2v
          exact T2v
        omega
      simp only [srDistinctB, Bool.or_eq_true, Bool.and_eq_true, decide_eq_true_eq]
      exact Or.inr ⟨⟨⟨⟨⟨hd1, hd2⟩, hd3⟩, hd4⟩, hd5⟩, hd6⟩
  · exact ⟨(normVal_ext S3 sc2 O3v).trans (O3n.trans
        (normVal_ext E2 p.static_categoricals hsc)),
      (normVal_ext S4 sr2 O4v).trans (O4n.trans (normVal_ext E3 p.static_reals hsr)),
      (normVal_ext S5 kc2 O5v).trans (O5n.trans
        (normVal_ext E4 p.time_varying_known_categoricals htkc)),
      (normVal_ext S6 kr2 O6v).trans (O6n.trans
        (normVal_ext E5 p.time_varying_known_reals htkr)),
      (normVal_ext S7 uc2 O7v).trans (O7n.trans
        (normVal_ext E6 p.time_varying_unknown_categoricals htuc)),
      (normVal_ext S8 ur2 O8v).trans (O8n.trans
        (normVal_ext E7 p.time_varying_unknown_reals htur)),
      (targetNamesVal_ext S2 t2 T2v).trans (T2n.trans
        (targetNamesVal_ext e1 p.target ht))⟩
  · exact E9v
  · exact E9val.trans (encDictVal_ext E8 p.categorical_encoders hce)
  · exact E9iff

/-! ### Claim theorems for `TimeseriesFeatures` and `TimeseriesDataset` -/

/-- C5: constructing `TimeseriesFeatures` with any subset of the role
keyword arguments omitted normalises every omitted role attribute to the
empty list, and `reals`/`categoricals` are concatenations of the supplied
string lists (so no `None` can occur in them). -/
theorem C5_omitted_roles_normalised (σ : Store) (t : PyTarget)
    (sc sr tkc tkr tuc tur : Option Nat) (σf : Store) (f : TimeseriesFeatures)
    (heq : TimeseriesFeatures.make σ t sc sr tkc tkr tuc tur = (σf, f))
    (hsc : σ.ovalid sc = true) (hsr : σ.ovalid sr = true) (htkc : σ.ovalid tkc = true)
    (htkr : σ.ovalid tkr = true) (htuc : σ.ovalid tuc = true) (htur : σ.ovalid tur = true)
    (ht : σ.tvalidB t = true) :
    (sc = none → σf.read f.static_categoricals = []) ∧
    (sr = none → σf.read f.static_reals = []) ∧
    (tkc = none → σf.read f.time_varying_known_categoricals = []) ∧
    (tkr = none → σf.read f.time_varying_known_reals = []) ∧
    (tuc = none → σf.read f.time_varying_unknown_categoricals = []) ∧
    (tur = none → σf.read f.time_varying_unknown_reals = []) ∧
    f.reals σf = normVal σ sr ++ normVal σ tkr ++ normVal σ tur ∧
    f.categoricals σf = normVal σ sc ++ normVal σ tkc ++ normVal σ tuc := by
  obtain ⟨-, Rsc, Rsr, Rtkc, Rtkr, Rtuc, Rtur, -, -, -⟩ :=
    featuresMake_spec σ t sc sr tkc tkr tuc tur σf f heq hsc hsr htkc htkr htuc htur ht
  refine ⟨fun h => by rw [Rsc, h]; rfl, fun h => by rw [Rsr, h]; rfl,
    fun h => by rw [Rtkc, h]; rfl, fun h => by rw [Rtkr, h]; rfl,
    fun h => by rw [Rtuc, h]; rfl, fun h => by rw [Rtur, h]; rfl, ?_, ?_⟩
  · unfold TimeseriesFeatures.reals
    rw [Rsr, Rtkr, Rtur]
  · unfold TimeseriesFeatures.categoricals
    rw [Rsc, Rtkc, Rtuc]

/-- Store fixture holding one allocated list `["price"]` at address 0. -/
def storeP : Store := (emptyStore.alloc ["price"]).1

theorem C5_omitted_roles_normalised_witness :
    (storeP.ovalid (some 0) = true ∧ storeP.tvalidB (.str "sales") = true) ∧
    (TimeseriesFeatures.make storeP (.str "sales") none none none (some 0) none
        none).2.reals
      (TimeseriesFeatures.make storeP (.str "sales") none none none (some 0) none
        none).1 =
      normVal storeP none ++ normVal storeP (some 0) ++ normVal storeP none :=
  ⟨⟨by decide, rfl⟩,
   (C5_omitted_roles_normalised storeP (.str "sales") none none none (some 0) none none
      _ _ rfl rfl rfl rfl (by decide) rfl rfl rfl).2.2.2.2.2.2.1⟩

/-- C6 (amended): `reals` and `categoricals` concatenate the role lists in
the fixed static → known → unknown order, and `target_names` is `[target]`
for a single nonempty string target and the target's value when the target
is a list.  An empty-string target is falsy, so `__post_init__` replaces it
with an empty list and `target_names` is `[]` rather than `[""]`. -/
theorem C6_fixed_role_order (σ : Store) (t : PyTarget)
    (sc sr tkc tkr tuc tur : Option Nat) (σf : Store) (f : TimeseriesFeatures)
    (heq : TimeseriesFeatures.make σ t sc sr tkc tkr tuc tur = (σf, f))
    (hsc : σ.ovalid sc = true) (hsr : σ.ovalid sr = true) (htkc : σ.ovalid tkc = true)
    (htkr : σ.ovalid tkr = true) (htuc : σ.ovalid tuc = true) (htur : σ.ovalid tur = true)
    (ht : σ.tvalidB t = true) :
    f.reals σf = normVal σ sr ++ normVal σ tkr ++ normVal σ tur ∧
    f.categoricals σf = normVal σ sc ++ normVal σ tkc ++ normVal σ tuc ∧
    (∀ s, t = .str s → s ≠ "" → f.target_names σf = [s]) ∧
    (∀ r, t = .lst r → f.target_names σf = σ.read r) := by
  obtain ⟨-, Rsc, Rsr, Rtkc, Rtkr, Rtuc, Rtur, Rt, -, -⟩ :=
    featuresMake_spec σ t sc sr tkc tkr tuc tur σf f heq hsc hsr htkc htkr htuc htur ht
  refine ⟨?_, ?_, ?_, ?_⟩
  · unfold TimeseriesFeatures.reals
    rw [Rsr, Rtkr, Rtur]
  · unfold TimeseriesFeatures.categoricals
    rw [Rsc, Rtkc, Rtuc]
  · intro s hts hne
    rw [Rt, hts]
    simp [targetNamesVal, hne]
  · intro r htr
    rw [Rt, htr]
    rfl

/-- C6 counterexample: a `TimeseriesFeatures` built with the single-string
target `""` has `target_names = []`, not `[""]` — the empty string is falsy
and `__post_init__` replaces it with an empty list. -/
theorem C6_fixed_role_order_counterexample :
    TimeseriesFeatures.target_names
        (TimeseriesFeatures.make emptyStore (.str "") none none none none none none).1
        (TimeseriesFeatures.make emptyStore (.str "") none none none none none none).2 =
      [] ∧
    TimeseriesFeatures.target_names
        (TimeseriesFeatures.make emptyStore (.str "") none none none none none none).1
        (TimeseriesFeatures.make emptyStore (.str "") none none none none none none).2 ≠
      [""] :=
  ⟨rfl, by decide⟩

theorem C6_fixed_role_order_witness :
    (storeP.tvalidB (.str "sales") = true ∧ "sales" ≠ "") ∧
    TimeseriesFeatures.target_names
        (TimeseriesFeatures.make storeP (.str "sales") none (some 0) none none none
          none).1
        (TimeseriesFeatures.make storeP (.str "sales") none (some 0) none none none
          none).2 = ["sales"] :=
  ⟨⟨rfl, by decide⟩,
   (C6_fixed_role_order storeP (.str "sales") none (some 0) none none none none _ _ rfl
      rfl (by decide) rfl rfl rfl rfl rfl).2.2.1 "sales" rfl (by decide)⟩

/-- C7: `get_default_scalers` returns a dict whose key set is exactly the
real features that are not target names and whose every value is an
`IdentityTransformer`. -/
theorem C7_default_scalers_keys (σ : Store) (d : TimeseriesDataset) :
    (∀ kv ∈ d.get_default_scalers σ, kv.2 = IdentityTransformer.mk) ∧
    (∀ k : String, (∃ v, (k, v) ∈ d.get_default_scalers σ) ↔
      (k ∈ d.features.reals σ ∧ k ∉ d.features.target_names σ)) := by
  constructor
  · intro kv _
    exact identityTransformer_unique kv.2
  · intro k
    exact getDefaultScalersList_key_iff (d.features.reals σ) (d.features.target_names σ) k

/-- Dataframe fixture (contents are opaque to the wrapper). -/
def dfFix : DataFrame := ⟨[]⟩

/-- Dataset fixture: built over `storeP` with `static_reals = ["price"]`,
target `"sales"`, and default encoders. -/
def dFix : TimeseriesDataset :=
  (TimeseriesDataset.make storeP dfFix "date" (.str "sales") 0 30 none none 1 none
    (some 0) none none none none (.boolV false) true none false).2

/-- Store after constructing `dFix`. -/
def σFix : Store :=
  (TimeseriesDataset.make storeP dfFix "date" (.str "sales") 0 30 none none 1 none
    (some 0) none none none none (.boolV false) true none false).1

theorem C7_default_scalers_keys_witness :
    (("price", IdentityTransformer.mk) ∈ dFix.get_default_scalers σFix ∧
      "price" ∈ dFix.features.reals σFix ∧ "price" ∉ dFix.features.target_names σFix) ∧
    (("price", IdentityTransformer.mk).2 = IdentityTransformer.mk ∧
      (∃ v, ("price", v) ∈ dFix.get_default_scalers σFix)) :=
  ⟨⟨by decide, by decide, by decide⟩,
   ⟨(C7_default_scalers_keys σFix dFix).1 ("price", IdentityTransformer.mk) (by decide),
    ((C7_default_scalers_keys σFix dFix).2 "price").mpr ⟨by decide, by decide⟩⟩⟩

/-- C8 (amended): with `add_encoder_length=True` and a caller-supplied
**non-empty** `static_reals` list not yet yielding `"encoder_length"` among
the real features, construction appends `"encoder_length"` to that very
list object in place, and every other pre-existing list object is
unchanged; with `add_encoder_length=False` no pre-existing list object is
modified.  (For an empty caller list, `ls or []` in `__post_init__`
substitutes a fresh list, so the caller's object is *not* mutated — hence
the non-emptiness condition.) -/
theorem C8_inplace_append (σ : Store) (data : DataFrame) (time_idx : String)
    (t : PyTarget) (gid : Nat) (mel : Int) (mnel mnpl : Option Int) (mpl : Int)
    (sc : Option Nat) (r : Nat) (tkc tkr tuc tur : Option Nat) (rl : RandomizeLength)
    (ce : Option EncDict) (pm : Bool)
    (hsc : σ.ovalid sc = true) (hr : σ.ovalid (some r) = true)
    (htkc : σ.ovalid tkc = true) (htkr : σ.ovalid tkr = true)
    (htuc : σ.ovalid tuc = true) (htur : σ.ovalid tur = true)
    (ht : σ.tvalidB t = true)
    (hdist : srDistinctB σ t sc (some r) tkc tkr tuc tur = true)
    (hce : ∀ d0, ce = some d0 → ∀ kv ∈ d0, kv.2 < σ.enext) :
    (σ.read r ≠ [] → "encoder_length" ∉ realsBeforeVal σ (some r) tkr tur →
      (TimeseriesDataset.make σ data time_idx t gid mel mnel mnpl mpl sc (some r) tkc
          tkr tuc tur rl true ce pm).1.read r = σ.read r ++ ["encoder_length"] ∧
      (∀ r2, r2 < σ.next → r2 ≠ r →
        (TimeseriesDataset.make σ data time_idx t gid mel mnel mnpl mpl sc (some r)
            tkc tkr tuc tur rl true ce pm).1.read r2 = σ.read r2)) ∧
    (∀ r2, r2 < σ.next →
      (TimeseriesDataset.make σ data time_idx t gid mel mnel mnpl mpl sc (some r) tkc
          tkr tuc tur rl false ce pm).1.read r2 = σ.read r2) := by
  constructor
  · intro hne hmem
    rcases hM : TimeseriesDataset.make σ data time_idx t gid mel mnel mnpl mpl sc
        (some r) tkc tkr tuc tur rl true ce pm with ⟨σ', d⟩
    simp only [hM]
    obtain ⟨-, -, Hsr, -, -, -, -, -, -, -, Hframe, -, HCK2⟩ :=
      makeSpec σ data time_idx t gid mel mnel mnpl mpl sc (some r) tkc tkr tuc tur rl
        true ce pm σ' d hM hsc hr htkc htkr htuc htur ht hdist hce
    have hrr : d.features.static_reals = r := HCK2 r rfl hne
    have hcond : appendCondB σ true (some r) tkr tur = true := by
      unfold appendCondB
      simp only [Bool.true_and, decide_eq_true_eq]
      exact hmem
    constructor
    · have hL : σ'.read r = srAfterVal σ true (some r) tkr tur := hrr ▸ Hsr
      rw [hL]
      unfold srAfterVal
      rw [if_pos hcond]
      rfl
    · intro r2 h2 hne2
      exact Hframe r2 h2 (fun rr hrr2 _ => (Option.some.inj hrr2) ▸ hne2)
  · intro r2 h2
    rcases hM : TimeseriesDataset.make σ data time_idx t gid mel mnel mnpl mpl sc
        (some r) tkc tkr tuc tur rl false ce pm with ⟨σ2, d2⟩
    simp only [hM]
    obtain ⟨-, -, -, -, -, -, -, -, -, -, -, Hnone, -⟩ :=
      makeSpec σ data time_idx t gid mel mnel mnpl mpl sc (some r) tkc tkr tuc tur rl
        false ce pm σ2 d2 hM hsc hr htkc htkr htuc htur ht hdist hce
    exact Hnone rfl r2 h2

/-- Store fixture holding one allocated *empty* list at address 0. -/
def storeE : Store := (emptyStore.alloc []).1

/-- C8 counterexample: with `add_encoder_length=True` and a caller-supplied
empty `static_reals` list, the caller's list object is **not** mutated —
after construction it is still empty and contains no `"encoder_length"`
(the append went to the fresh list substituted by `ls or []`). -/
theorem C8_inplace_append_counterexample :
    (TimeseriesDataset.make storeE dfFix "date" (.str "sales") 0 30 none none 1 none
        (some 0) none none none none (.boolV false) true none false).1.read 0 = [] ∧
    "encoder_length" ∉ (TimeseriesDataset.make storeE dfFix "date" (.str "sales") 0 30
        none none 1 none (some 0) none none none none (.boolV false) true none
        false).1.read 0 :=
  ⟨rfl, by decide⟩

theorem C8_inplace_append_witness :
    (storeP.read 0 ≠ [] ∧
      "encoder_length" ∉ realsBeforeVal storeP (some 0) none none ∧
      srDistinctB storeP (.str "sales") none (some 0) none none none none = true) ∧
    (TimeseriesDataset.make storeP dfFix "date" (.str "sales") 0 30 none none 1 none
        (some 0) none none none none (.boolV false) true none false).1.read 0 =
      storeP.read 0 ++ ["encoder_length"] :=
  ⟨⟨by decide, by decide, by decide⟩,
   ((C8_inplace_append storeP dfFix "date" (.str "sales") 0 30 none none 1 none 0 none
       none none none (.boolV false) none false rfl (by decide) rfl rfl rfl rfl rfl
       (by decide) (fun d0 h => nomatch h)).1 (by decide) (by decide)).1⟩

/-- Constructing a dataset leaves the values of all argument list objects
other than a kept non-empty `static_reals` list unchanged; the
`static_reals` value either becomes the appended value or the argument was
absent/empty and its value is unchanged. -/
theorem make_frame_vals (σ : Store) (data : DataFrame) (time_idx : String)
    (t : PyTarget) (gid : Nat) (mel : Int) (mnel mnpl : Option Int) (mpl : Int)
    (sc sr tkc tkr tuc tur : Option Nat) (rl : RandomizeLength) (add : Bool)
    (ce : Option EncDict) (pm : Bool) (σ' : Store) (d : TimeseriesDataset)
    (heq : TimeseriesDataset.make σ data time_idx t gid mel mnel mnpl mpl sc sr tkc
      tkr tuc tur rl add ce pm = (σ', d))
    (hsc : σ.ovalid sc = true) (hsr : σ.ovalid sr = true) (htkc : σ.ovalid tkc = true)
    (htkr : σ.ovalid tkr = true) (htuc : σ.ovalid tuc = true) (htur : σ.ovalid tur = true)
    (ht : σ.tvalidB t = true)
    (hdist : srDistinctB σ t sc sr tkc tkr tuc tur = true)
    (hce : ∀ d0, ce = some d0 → ∀ kv ∈ d0, kv.2 < σ.enext) :
    normVal σ' sc = normVal σ sc ∧ normVal σ' tkc = normVal σ tkc ∧
    normVal σ' tkr = normVal σ tkr ∧ normVal σ' tuc = normVal σ tuc ∧
    normVal σ' tur = normVal σ tur ∧ targetNamesVal σ' t = targetNamesVal σ t ∧
    (normVal σ' sr = srAfterVal σ add sr tkr tur ∨
      (normVal σ' sr = normVal σ sr ∧ normVal σ sr = [])) := by
  obtain ⟨-, -, Hsr, -, -, -, -, -, -, -, Hframe, -, HCK2⟩ :=
    makeSpec σ data time_idx t gid mel mnel mnpl mpl sc sr tkc tkr tuc tur rl add ce
      pm σ' d heq hsc hsr htkc htkr htuc htur ht hdist hce
  have hdp := srDistinctB_prop σ t sc sr tkc tkr tuc tur hdist
  have hprot : ∀ X : Option Nat, σ.ovalid X = true →
      (∀ rr, sr = some rr → σ.read rr ≠ [] → X ≠ some rr) →
      normVal σ' X = normVal σ X := by
    intro X hv hX
    cases X with
    | none => rfl
    | some rx =>
      simp only [Store.ovalid, decide_eq_true_eq] at hv
      show σ'.read rx = σ.read rx
      apply Hframe rx hv
      intro rr h1 h2 hcon
      exact hX rr h1 h2 (by rw [hcon])
  refine ⟨hprot sc hsc (fun rr h1 h2 => (hdp rr h1 h2).1),
    hprot tkc htkc (fun rr h1 h2 => (hdp rr h1 h2).2.1),
    hprot tkr htkr (fun rr h1 h2 => (hdp rr h1 h2).2.2.1),
    hprot tuc htuc (fun rr h1 h2 => (hdp rr h1 h2).2.2.2.1),
    hprot tur htur (fun rr h1 h2 => (hdp rr h1 h2).2.2.2.2.1), ?_, ?_⟩
  · cases t with
    | str s => rfl
    | lst rt =>
      simp only [Store.tvalidB, decide_eq_true_eq] at ht
      show σ'.read rt = σ.read rt
      apply Hframe rt ht
      intro rr h1 h2 hcon
      exact (hdp rr h1 h2).2.2.2.2.2 (by rw [hcon])
  · cases sr with
    | none => exact Or.inr ⟨rfl, rfl⟩
    | some rr =>
      by_cases hE : σ.read rr = []
      · refine Or.inr ⟨?_, hE⟩
        simp only [Store.ovalid, decide_eq_true_eq] at hsr
        show σ'.read rr = σ.read rr
        apply Hframe rr hsr
        intro rr2 h1 h2
        exact fun _ => h2 (Option.some.inj h1 ▸ hE)
      · have hfs : d.features.static_reals = rr := HCK2 rr rfl hE
        left
        exact hfs ▸ Hsr

/-- C1 (amended): after `get_parameters()` / `from_parameters(new_data)`,
the rebuilt dataset's scaler dictionary is identical to the original's and
its categorical encoder dictionary has the same keys and equal-valued
encoders.  The encoders are **not** the very same objects: `from_parameters`
deep-copies the parameter dict, so the rebuilt dataset holds fresh encoder
objects with equal fitted state. -/
theorem C1_roundtrip_config (σ : Store) (data data2 : DataFrame) (time_idx : String)
    (t : PyTarget) (gid : Nat) (mel : Int) (mnel mnpl : Option Int) (mpl : Int)
    (sc sr tkc tkr tuc tur : Option Nat) (rl : RandomizeLength) (add : Bool)
    (ce : Option EncDict) (pm : Bool) (σ1 σ2 : Store) (d d2 : TimeseriesDataset)
    (heq1 : TimeseriesDataset.make σ data time_idx t gid mel mnel mnpl mpl sc sr tkc
      tkr tuc tur rl add ce pm = (σ1, d))
    (heq2 : TimeseriesDataset.from_parameters σ1 d.get_parameters data2 = (σ2, d2))
    (hsc : σ.ovalid sc = true) (hsr : σ.ovalid sr = true) (htkc : σ.ovalid tkc = true)
    (htkr : σ.ovalid tkr = true) (htuc : σ.ovalid tuc = true) (htur : σ.ovalid tur = true)
    (ht : σ.tvalidB t = true)
    (hdist : srDistinctB σ t sc sr tkc tkr tuc tur = true)
    (hce : ∀ d0, ce = some d0 → ∀ kv ∈ d0, kv.2 < σ.enext) :
    d2.pf.scalers = d.pf.scalers ∧
    encDictVal σ2 d2.categorical_encoders = encDictVal σ1 d.categorical_encoders := by
  obtain ⟨⟨Mn, -⟩, -, -, -, -, -, Mscal, Mdef, Mkept, Mval, -, -, -⟩ :=
    makeSpec σ data time_idx t gid mel mnel mnpl mpl sc sr tkc tkr tuc tur rl add ce
      pm σ1 d heq1 hsc hsr htkc htkr htuc htur ht hdist hce
  obtain ⟨Fsc, Ftkc, Ftkr, Ftuc, Ftur, Ft, Fsr⟩ :=
    make_frame_vals σ data time_idx t gid mel mnel mnpl mpl sc sr tkc tkr tuc tur rl
      add ce pm σ1 d heq1 hsc hsr htkc htkr htuc htur ht hdist hce
  obtain ⟨Mp, -, -, -⟩ :=
    make_attrs σ data time_idx t gid mel mnel mnpl mpl sc sr tkc tkr tuc tur rl add
      ce pm σ1 d heq1
  rw [Mp] at heq2
  rcases hDC : Parameters.deepcopy σ1 ⟨time_idx, t, gid, mel, mnel, mnpl, mpl, sc, sr,
      tkc, tkr, tuc, tur, rl, add, d.categorical_encoders, pm⟩ with ⟨σc, pc⟩
  simp only [TimeseriesDataset.from_parameters, hDC] at heq2
  have hsc1 : σ1.ovalid sc = true := Store.ovalid_of_le Mn sc hsc
  have hsr1 : σ1.ovalid sr = true := Store.ovalid_of_le Mn sr hsr
  have htkc1 : σ1.ovalid tkc = true := Store.ovalid_of_le Mn tkc htkc
  have htkr1 : σ1.ovalid tkr = true := Store.ovalid_of_le Mn tkr htkr
  have htuc1 : σ1.ovalid tuc = true := Store.ovalid_of_le Mn tuc htuc
  have htur1 : σ1.ovalid tur = true := Store.ovalid_of_le Mn tur htur
  have ht1 : σ1.tvalidB t = true := Store.tvalidB_of_le Mn t ht
  obtain ⟨-, ⟨-, DCadd⟩, ⟨Vsc, Vsr, Vtkc, Vtkr, Vtuc, Vtur, Vt⟩, DCdist,
      ⟨Nsc, Nsr, Ntkc, Ntkr, Ntuc, Ntur, Nt⟩, DCval, DCenc, DCiff⟩ :=
    paramsDeepcopy_spec σ1 ⟨time_idx, t, gid, mel, mnel, mnpl, mpl, sc, sr, tkc, tkr,
      tuc, tur, rl, add, d.categorical_encoders, pm⟩ σc pc hDC hsc1 hsr1 htkc1 htkr1
      htuc1 htur1 ht1 Mval
  have DCadd2 : pc.add_encoder_length = add := DCadd
  have Nsc2 : normVal σc pc.static_categoricals = normVal σ1 sc := Nsc
  have Nsr2 : normVal σc pc.static_reals = normVal σ1 sr := Nsr
  have Ntkc2 : normVal σc pc.time_varying_known_categoricals = normVal σ1 tkc := Ntkc
  have Ntkr2 : normVal σc pc.time_varying_known_reals = normVal σ1 tkr := Ntkr
  have Ntuc2 : normVal σc pc.time_varying_unknown_categoricals = normVal σ1 tuc := Ntuc
  have Ntur2 : normVal σc pc.time_varying_unknown_reals = normVal σ1 tur := Ntur
  have Nt2 : targetNamesVal σc pc.target = targetNamesVal σ1 t := Nt
  have DCenc2 : encDictVal σc pc.categorical_encoders =
      encDictVal σ1 d.categorical_encoders := DCenc
  have DCiff2 : pc.categorical_encoders = [] ↔ d.categorical_encoders = [] := DCiff
  have hce2 : ∀ d0, some pc.categorical_encoders = some d0 →
      ∀ kv ∈ d0, kv.2 < σc.enext := fun d0 hh => (Option.some.inj hh) ▸ DCval
  obtain ⟨-, -, -, -, -, -, Mscal2, Mdef2, Mkept2, -, -, -, -⟩ :=
    makeSpec σc data2 pc.time_idx pc.target pc.group_ids pc.max_encoder_length
      pc.min_encoder_length pc.min_prediction_length pc.max_prediction_length
      pc.static_categoricals pc.static_reals pc.time_varying_known_categoricals
      pc.time_varying_known_reals pc.time_varying_unknown_categoricals
      pc.time_varying_unknown_reals pc.randomize_length pc.add_encoder_length
      (some pc.categorical_encoders) pc.predict_mode σ2 d2 heq2 Vsc Vsr Vtkc Vtkr
      Vtuc Vtur Vt DCdist hce2
  constructor
  · have hsr_rt : srAfterVal σc pc.add_encoder_length pc.static_reals
        pc.time_varying_known_reals pc.time_varying_unknown_reals =
        srAfterVal σ add sr tkr tur := by
      rw [srAfterVal_eq_pure, srAfterVal_eq_pure, Nsr2, Ntkr2, Ntur2, DCadd2, Ftkr,
        Ftur]
      apply srAfterPure_roundtrip
      rcases Fsr with h | ⟨h1, h2⟩
      · left
        rw [h]
        exact srAfterVal_eq_pure σ add sr tkr tur
      · exact Or.inr ⟨h1, h2⟩
    have hreals : realsAfterVal σc pc.add_encoder_length pc.static_reals
        pc.time_varying_known_reals pc.time_varying_unknown_reals =
        realsAfterVal σ add sr tkr tur := by
      unfold realsAfterVal
      rw [hsr_rt, Ntkr2, Ftkr, Ntur2, Ftur]
    rw [hreals, Nt2, Ft] at Mscal2
    exact Mscal2.trans Mscal.symm
  · by_cases hpc : pc.categorical_encoders = []
    · have h2 := Mdef2 (Or.inr (by rw [hpc]))
      have hcats : catsVal σc pc.static_categoricals
          pc.time_varying_known_categoricals pc.time_varying_unknown_categoricals =
          catsVal σ sc tkc tuc := by
        unfold catsVal
        rw [Nsc2, Fsc, Ntkc2, Ftkc, Ntuc2, Ftuc]
      rw [hcats] at h2
      have hdce : d.categorical_encoders = [] := DCiff2.mp hpc
      cases ce with
      | none => exact h2.trans (Mdef (Or.inl rfl)).symm
      | some d0 =>
        by_cases hd0 : d0 = []
        · subst hd0
          exact h2.trans (Mdef (Or.inr rfl)).symm
        · obtain ⟨he1, -⟩ := Mkept d0 rfl hd0
          exact absurd (he1 ▸ hdce) hd0
    · obtain ⟨-, h2⟩ := Mkept2 pc.categorical_encoders rfl hpc
      exact h2.trans DCenc2

/-- Store fixture holding one fitted encoder object at encoder address 0. -/
def storeEnc : Store := (emptyStore.ealloc ⟨false, ["red"]⟩).1

/-- Dataset fixture built over `storeEnc` with a supplied categorical
encoder dict `{"color": <encoder 0>}`. -/
def dEnc : TimeseriesDataset :=
  (TimeseriesDataset.make storeEnc dfFix "date" (.str "sales") 0 30 none none 1 none
    none none none none none (.boolV false) true (some [("color", 0)]) false).2

/-- Store after constructing `dEnc`. -/
def σEnc : Store :=
  (TimeseriesDataset.make storeEnc dfFix "date" (.str "sales") 0 30 none none 1 none
    none none none none none (.boolV false) true (some [("color", 0)]) false).1

/-- C1 counterexample: rebuilding `dEnc` from its parameters does **not**
pass the very same encoder objects through — the rebuilt dataset's encoder
dict holds a different (freshly deep-copied) object reference — although
the encoder values agree. -/
theorem C1_roundtrip_config_counterexample :
    (TimeseriesDataset.from_parameters σEnc dEnc.get_parameters
        dfFix).2.categorical_encoders ≠ dEnc.categorical_encoders ∧
    encDictVal (TimeseriesDataset.from_parameters σEnc dEnc.get_parameters dfFix).1
        (TimeseriesDataset.from_parameters σEnc dEnc.get_parameters
          dfFix).2.categorical_encoders =
      encDictVal σEnc dEnc.categorical_encoders :=
  ⟨by decide, by decide⟩

theorem C1_roundtrip_config_witness :
    (srDistinctB storeEnc (.str "sales") none none none none none none = true ∧
      storeEnc.tvalidB (.str "sales") = true) ∧
    ((TimeseriesDataset.from_parameters σEnc dEnc.get_parameters dfFix).2.pf.scalers =
        dEnc.pf.scalers ∧
      encDictVal (TimeseriesDataset.from_parameters σEnc dEnc.get_parameters dfFix).1
          (TimeseriesDataset.from_parameters σEnc dEnc.get_parameters
            dfFix).2.categorical_encoders =
        encDictVal σEnc dEnc.categorical_encoders) :=
  ⟨⟨rfl, rfl⟩,
   C1_roundtrip_config storeEnc dfFix dfFix "date" (.str "sales") 0 30 none none 1
     none none none none none none (.boolV false) true (some [("color", 0)]) false
     σEnc (TimeseriesDataset.from_parameters σEnc dEnc.get_parameters dfFix).1 dEnc
     (TimeseriesDataset.from_parameters σEnc dEnc.get_parameters dfFix).2 rfl rfl rfl
     rfl rfl rfl rfl rfl rfl rfl
     (fun d0 hh => (Option.some.inj hh) ▸ (by decide))⟩

/-! ### Repeated rebuilding via `get_parameters` / `from_parameters` -/

/-- Iterates `from_parameters(d.get_parameters(), data)` starting from a
store/dataset pair. -/
def rebuildIter (data : DataFrame) : Nat → Store × TimeseriesDataset →
    Store × TimeseriesDataset
  | 0, sd => sd
  | n + 1, sd =>
    rebuildIter data n (TimeseriesDataset.from_parameters sd.1 sd.2.get_parameters data)

/-- Invariant carried across rebuilds: the stored attribute references are
valid, the encoder references are valid, and both the raw `static_reals`
attribute value and the features' `static_reals` list contain
`"encoder_length"` at most once. -/
def RebuildInv (sd : Store × TimeseriesDataset) : Prop :=
  sd.1.ovalid sd.2.static_categoricals = true ∧
  sd.1.ovalid sd.2.static_reals = true ∧
  sd.1.ovalid sd.2.time_varying_known_categoricals = true ∧
  sd.1.ovalid sd.2.time_varying_known_reals = true ∧
  sd.1.ovalid sd.2.time_varying_unknown_categoricals = true ∧
  sd.1.ovalid sd.2.time_varying_unknown_reals = true ∧
  sd.1.tvalidB sd.2.target = true ∧
  (∀ kv ∈ sd.2.categorical_encoders, kv.2 < sd.1.enext) ∧
  (normVal sd.1 sd.2.static_reals).count "encoder_length" ≤ 1 ∧
  (sd.1.read sd.2.features.static_reals).count "encoder_length" ≤ 1

theorem rebuild_step (σ : Store) (d : TimeseriesDataset) (data : DataFrame)
    (h : RebuildInv (σ, d)) :
    RebuildInv (TimeseriesDataset.from_parameters σ d.get_parameters data) := by
  obtain ⟨hsc, hsr, htkc, htkr, htuc, htur, ht, hev, hcnt, -⟩ := h
  rcases hDC : Parameters.deepcopy σ d.get_parameters with ⟨σc, pc⟩
  obtain ⟨-, -, ⟨Vsc, Vsr, Vtkc, Vtkr, Vtuc, Vtur, Vt⟩, DCdist,
      ⟨-, Nsr, -, -, -, -, -⟩, DCval, -, -⟩ :=
    paramsDeepcopy_spec σ d.get_parameters σc pc hDC hsc hsr htkc htkr htuc htur ht hev
  rcases hM : TimeseriesDataset.make σc data pc.time_idx pc.target pc.group_ids
      pc.max_encoder_length pc.min_encoder_length pc.min_prediction_length
      pc.max_prediction_length pc.static_categoricals pc.static_reals
      pc.time_varying_known_categoricals pc.time_varying_known_reals
      pc.time_varying_unknown_categoricals pc.time_varying_unknown_reals
      pc.randomize_length pc.add_encoder_length (some pc.categorical_encoders)
      pc.predict_mode with ⟨σ2, d2⟩
  have hFP : TimeseriesDataset.from_parameters σ d.get_parameters data = (σ2, d2) := by
    simp only [TimeseriesDataset.from_parameters, hDC]
    exact hM
  rw [hFP]
  have hce2 : ∀ d0, some pc.categorical_encoders = some d0 →
      ∀ kv ∈ d0, kv.2 < σc.enext := fun d0 hh => (Option.some.inj hh) ▸ DCval
  obtain ⟨⟨Mn2, -⟩, -, Msr2r, -, -, -, -, -, -, Mval2, -, -, -⟩ :=
    makeSpec σc data pc.time_idx pc.target pc.group_ids pc.max_encoder_length
      pc.min_encoder_length pc.min_prediction_length pc.max_prediction_length
      pc.static_categoricals pc.static_reals pc.time_varying_known_categoricals
      pc.time_varying_known_reals pc.time_varying_unknown_categoricals
      pc.time_varying_unknown_reals pc.randomize_length pc.add_encoder_length
      (some pc.categorical_encoders) pc.predict_mode σ2 d2 hM Vsc Vsr Vtkc Vtkr Vtuc
      Vtur Vt DCdist hce2
  obtain ⟨-, -, -, -, -, -, Fsr2⟩ :=
    make_frame_vals σc data pc.time_idx pc.target pc.group_ids pc.max_encoder_length
      pc.min_encoder_length pc.min_prediction_length pc.max_prediction_length
      pc.static_categoricals pc.static_reals pc.time_varying_known_categoricals
      pc.time_varying_known_reals pc.time_varying_unknown_categoricals
      pc.time_varying_unknown_reals pc.randomize_length pc.add_encoder_length
      (some pc.categorical_encoders) pc.predict_mode σ2 d2 hM Vsc Vsr Vtkc Vtkr Vtuc
      Vtur Vt DCdist hce2
  obtain ⟨Mp2, -, -, Mt2⟩ :=
    make_attrs σc data pc.time_idx pc.target pc.group_ids pc.max_encoder_length
      pc.min_encoder_length pc.min_prediction_length pc.max_prediction_length
      pc.static_categoricals pc.static_reals pc.time_varying_known_categoricals
      pc.time_varying_known_reals pc.time_varying_unknown_categoricals
      pc.time_varying_unknown_reals pc.randomize_length pc.add_encoder_length
      (some pc.categorical_encoders) pc.predict_mode σ2 d2 hM
  have hcntc : (normVal σc pc.static_reals).count "encoder_length" ≤ 1 := by
    have Nsr2 : normVal σc pc.static_reals = normVal σ d.static_reals := Nsr
    rw [Nsr2]
    exact hcnt
  refine ⟨?_, ?_, ?_, ?_, ?_, ?_, ?_, ?_, ?_, ?_⟩
  · have e : d2.static_categoricals = pc.static_categoricals :=
      congrArg Parameters.static_categoricals Mp2
    show σ2.ovalid d2.static_categoricals = true
    rw [e]
    exact Store.ovalid_of_le Mn2 _ Vsc
  · have e : d2.static_reals = pc.static_reals :=
      congrArg Parameters.static_reals Mp2
    show σ2.ovalid d2.static_reals = true
    rw [e]
    exact Store.ovalid_of_le Mn2 _ Vsr
  · have e : d2.time_varying_known_categoricals =
        pc.time_varying_known_categoricals :=
      congrArg Parameters.time_varying_known_categoricals Mp2
    show σ2.ovalid d2.time_varying_known_categoricals = true
    rw [e]
    exact Store.ovalid_of_le Mn2 _ Vtkc
  · have e : d2.time_varying_known_reals = pc.time_varying_known_reals :=
      congrArg Parameters.time_varying_known_reals Mp2
    show σ2.ovalid d2.time_varying_known_reals = true
    rw [e]
    exact Store.ovalid_of_le Mn2 _ Vtkr
  · have e : d2.time_varying_unknown_categoricals =
        pc.time_varying_unknown_categoricals :=
      congrArg Parameters.time_varying_unknown_categoricals Mp2
    show σ2.ovalid d2.time_varying_unknown_categoricals = true
    rw [e]
    exact Store.ovalid_of_le Mn2 _ Vtuc
  · have e : d2.time_varying_unknown_reals = pc.time_varying_unknown_reals :=
      congrArg Parameters.time_varying_unknown_reals Mp2
    show σ2.ovalid d2.time_varying_unknown_reals = true
    rw [e]
    exact Store.ovalid_of_le Mn2 _ Vtur
  · show σ2.tvalidB d2.target = true
    rw [Mt2]
    exact Store.tvalidB_of_le Mn2 _ Vt
  · exact Mval2
  · have e : d2.static_reals = pc.static_reals :=
      congrArg Parameters.static_reals Mp2
    show (normVal σ2 d2.static_reals).count "encoder_length" ≤ 1
    rw [e]
    rcases Fsr2 with h9 | ⟨h9, -⟩
    · rw [h9, srAfterVal_eq_pure]
      exact srAfterPure_count _ _ _ _ hcntc
    · rw [h9]
      exact hcntc
  · show (σ2.read d2.features.static_reals).count "encoder_length" ≤ 1
    rw [Msr2r, srAfterVal_eq_pure]
    exact srAfterPure_count _ _ _ _ hcntc

theorem rebuildIter_inv (data : DataFrame) (n : Nat) :
    ∀ sd : Store × TimeseriesDataset, RebuildInv sd →
      RebuildInv (rebuildIter data n sd) := by
  induction n with
  | zero => exact fun sd h => h
  | succ n ih =>
    intro sd h
    simp only [rebuildIter]
    exact ih _ (rebuild_step sd.1 sd.2 data h)

/-- C10 (amended): the `"encoder_length"` append is guarded by a membership
test on the real features, so if the supplied `static_reals` value contains
`"encoder_length"` at most once, then after construction and after any
number of `get_parameters`/`from_parameters` rebuilds the dataset's
`static_reals` feature list still contains `"encoder_length"` at most once.
(The guard does not deduplicate: a supplied list already holding two
occurrences keeps both forever, so the bound needs this hypothesis on the
input.) -/
theorem C10_encoder_length_at_most_once (σ : Store) (data data2 : DataFrame)
    (time_idx : String) (t : PyTarget) (gid : Nat) (mel : Int) (mnel mnpl : Option Int)
    (mpl : Int) (sc sr tkc tkr tuc tur : Option Nat) (rl : RandomizeLength)
    (add : Bool) (ce : Option EncDict) (pm : Bool) (σ1 : Store)
    (d : TimeseriesDataset)
    (heq1 : TimeseriesDataset.make σ data time_idx t gid mel mnel mnpl mpl sc sr tkc
      tkr tuc tur rl add ce pm = (σ1, d))
    (hsc : σ.ovalid sc = true) (hsr : σ.ovalid sr = true) (htkc : σ.ovalid tkc = true)
    (htkr : σ.ovalid tkr = true) (htuc : σ.ovalid tuc = true) (htur : σ.ovalid tur = true)
    (ht : σ.tvalidB t = true)
    (hdist : srDistinctB σ t sc sr tkc tkr tuc tur = true)
    (hce : ∀ d0, ce = some d0 → ∀ kv ∈ d0, kv.2 < σ.enext)
    (hcount : (normVal σ sr).count "encoder_length" ≤ 1) :
    ∀ n, ((rebuildIter data2 n (σ1, d)).1.read
        (rebuildIter data2 n (σ1, d)).2.features.static_reals).count
      "encoder_length" ≤ 1 := by
  obtain ⟨⟨Mn, -⟩, -, Msrr, -, -, -, -, -, -, Mval, -, -, -⟩ :=
    makeSpec σ data time_idx t gid mel mnel mnpl mpl sc sr tkc tkr tuc tur rl add ce
      pm σ1 d heq1 hsc hsr htkc htkr htuc htur ht hdist hce
  obtain ⟨-, -, -, -, -, -, Fsr⟩ :=
    make_frame_vals σ data time_idx t gid mel mnel mnpl mpl sc sr tkc tkr tuc tur rl
      add ce pm σ1 d heq1 hsc hsr htkc htkr htuc htur ht hdist hce
  obtain ⟨Mp, -, Msr, Mt⟩ :=
    make_attrs σ data time_idx t gid mel mnel mnpl mpl sc sr tkc tkr tuc tur rl add
      ce pm σ1 d heq1
  have hInv : RebuildInv (σ1, d) := by
    refine ⟨?_, ?_, ?_, ?_, ?_, ?_, ?_, Mval, ?_, ?_⟩
    · have e : d.static_categoricals = sc := congrArg Parameters.static_categoricals Mp
      show σ1.ovalid d.static_categoricals = true
      rw [e]
      exact Store.ovalid_of_le Mn _ hsc
    · show σ1.ovalid d.static_reals = true
      rw [Msr]
      exact Store.ovalid_of_le Mn _ hsr
    · have e : d.time_varying_known_categoricals = tkc :=
        congrArg Parameters.time_varying_known_categoricals Mp
      show σ1.ovalid d.time_varying_known_categoricals = true
      rw [e]
      exact Store.ovalid_of_le Mn _ htkc
    · have e : d.time_varying_known_reals = tkr :=
        congrArg Parameters.time_varying_known_reals Mp
      show σ1.ovalid d.time_varying_known_reals = true
      rw [e]
      exact Store.ovalid_of_le Mn _ htkr
    · have e : d.time_varying_unknown_categoricals = tuc :=
        congrArg Parameters.time_varying_unknown_categoricals Mp
      show σ1.ovalid d.time_varying_unknown_categoricals = true
      rw [e]
      exact Store.ovalid_of_le Mn _ htuc
    · have e : d.time_varying_unknown_reals = tur :=
        congrArg Parameters.time_varying_unknown_reals Mp
      show σ1.ovalid d.time_varying_unknown_reals = true
      rw [e]
      exact Store.ovalid_of_le Mn _ htur
    · show σ1.tvalidB d.target = true
      rw [Mt]
      exact Store.tvalidB_of_le Mn _ ht
    · show (normVal σ1 d.static_reals).count "encoder_length" ≤ 1
      rw [Msr]
      rcases Fsr with h9 | ⟨h9, -⟩
      · rw [h9, srAfterVal_eq_pure]
        exact srAfterPure_count _ _ _ _ hcount
      · rw [h9]
        exact hcount
    · show (σ1.read d.features.static_reals).count "encoder_length" ≤ 1
      rw [Msrr, srAfterVal_eq_pure]
      exact srAfterPure_count _ _ _ _ hcount
  intro n
  exact (rebuildIter_inv data2 n (σ1, d) hInv).2.2.2.2.2.2.2.2.2

/-- Store fixture whose list at address 0 already contains
`"encoder_length"` twice. -/
def storeD : Store := (emptyStore.alloc ["encoder_length", "encoder_length"]).1

/-- C10 counterexample: a caller-supplied `static_reals` list already
containing `"encoder_length"` twice keeps both occurrences, also after a
`get_parameters`/`from_parameters` rebuild — the guard never deduplicates,
so "at most once" is false for such input. -/
theorem C10_encoder_length_at_most_once_counterexample :
    ((rebuildIter dfFix 1 (TimeseriesDataset.make storeD dfFix "date" (.str "sales")
          0 30 none none 1 none (some 0) none none none none (.boolV false) true none
          false)).1.read
        (rebuildIter dfFix 1 (TimeseriesDataset.make storeD dfFix "date" (.str "sales")
          0 30 none none 1 none (some 0) none none none none (.boolV false) true none
          false)).2.features.static_reals).count "encoder_length" = 2 := by
  decide

/-- Store/dataset pair used in the C10 witness. -/
def sdFix : Store × TimeseriesDataset :=
  TimeseriesDataset.make storeP dfFix "date" (.str "sales") 0 30 none none 1 none
    (some 0) none none none none (.boolV false) true none false

theorem C10_encoder_length_at_most_once_witness :
    ((normVal storeP (some 0)).count "encoder_length" ≤ 1 ∧
      srDistinctB storeP (.str "sales") none (some 0) none none none none = true) ∧
    ((rebuildIter dfFix 2 (sdFix.1, sdFix.2)).1.read
        (rebuildIter dfFix 2 (sdFix.1, sdFix.2)).2.features.static_reals).count
      "encoder_length" ≤ 1 :=
  ⟨⟨by decide, by decide⟩,
   C10_encoder_length_at_most_once storeP dfFix dfFix "date" (.str "sales") 0 30 none
     none 1 none (some 0) none none none none (.boolV false) true none false sdFix.1
     sdFix.2 rfl rfl (by decide) rfl rfl rfl rfl rfl (by decide)
     (fun d0 hh => nomatch hh) (by decide) 2⟩
